import Mathlib

/-!
Verification of the mas-website build hooks (docs/hooks/combine-repos.py,
add-checklists-banner.py, resolve_terms.py, fix-serve-watch.py).

Page contents and path strings are modelled as `List Char`; the file system is
modelled as a set of directories plus an association list from file paths
(segment lists) to file contents.  All definitions are executable and are
translated directly from the Python source.
-/

set_option maxHeartbeats 1000000

abbrev Chars := List Char

/-- Python whitespace characters, the set removed by `str.strip()`. -/
def pyIsSpace (c : Char) : Bool :=
  c = ' ' || c = '\t' || c = '\n' || c = '\x0d' || c = '\x0b' || c = '\x0c'

/-- Python `str.strip()`: remove leading and trailing whitespace. -/
def pyStrip (s : Chars) : Chars :=
  ((s.dropWhile pyIsSpace).reverse.dropWhile pyIsSpace).reverse

/-- The scanning loop of Python `str.replace(old, new)`, with explicit fuel
so that the recursion is structural.  Every step consumes at least one
character (the patterns in the hooks are non-empty), so `fuel = s.length`
never runs out. -/
def replaceAllFuel (pat rep : Chars) : Nat → Chars → Chars
  | 0, s => s
  | fuel + 1, s =>
    match s with
    | [] => []
    | c :: rest =>
      if !pat.isEmpty && pat.isPrefixOf (c :: rest) then
        rep ++ replaceAllFuel pat rep fuel ((c :: rest).drop pat.length)
      else
        c :: replaceAllFuel pat rep fuel rest

/-- Python `str.replace(old, new)`: replace all non-overlapping occurrences,
scanning left to right. -/
def replaceAll (pat rep s : Chars) : Chars := replaceAllFuel pat rep s.length s

/-- Python's substring test `pat in s`. -/
def containsSub (pat : Chars) : Chars → Bool
  | [] => pat.isEmpty
  | c :: rest => pat.isPrefixOf (c :: rest) || containsSub pat rest

/-- Python truthiness of an optional string value (`None` and `""` are falsy). -/
def pyTruthy : Option Chars → Bool
  | none => false
  | some s => !s.isEmpty

/- ### add-checklists-banner.py -/

/-- The `checklists_banner` triple-quoted string literal (it starts and ends
with a newline). -/
def checklists_banner : Chars :=
  ("\n!!! info \"Checklists Updated (June 2025)\"\n    The checklists now include **all MASTG tests**, as well as updated mappings to the new [MAS profiles](https://mas.owasp.org/MASTG/0x03b-Testing-Profiles/).\n").toList

/-- The fixed banner block that is placed in front of matching pages:
`"\n" + checklists_banner` from the source's string concatenation. -/
def bannerBlock : Chars := ("\n").toList ++ checklists_banner

/-- `on_page_markdown` of add-checklists-banner.py: prepend the banner when the
page path contains `"checklists/MASVS-"`. -/
def on_page_markdown_banner (path markdown : Chars) : Chars :=
  if containsSub ("checklists/MASVS-").toList path then
    ("\n").toList ++ checklists_banner ++ ("\n\n").toList ++ markdown
  else
    markdown

/- ### combine-repos.py: locate_external_repo -/

/-- A file-system path, as a list of segments. -/
abbrev FPath := List String

/-- The ordered candidate locations checked by `locate_external_repo`:
`repos/<name>`, `../<name>`, `./<name>`. -/
def repo_candidates (repo_name : String) : List FPath :=
  [["repos", repo_name], ["..", repo_name], [".", repo_name]]

/-- `locate_external_repo`: return the first candidate that is a directory;
when none is, raise an error that names all attempted candidate paths (the
error value carries the full candidate list, as the exception message does). -/
def locate_external_repo (is_dir : FPath → Bool) (repo_name : String) :
    Except (List FPath) FPath :=
  match (repo_candidates repo_name).find? is_dir with
  | some p => .ok p
  | none => .error (repo_candidates repo_name)

/- ### fix-serve-watch.py -/

/-- The part of the mkdocs config written by `on_pre_build` and read by
`on_serve`: the three recorded external repository locations. -/
structure ServeConfig where
  mastg_repo : Option FPath
  masvs_repo : Option FPath
  maswe_repo : Option FPath

/-- The live-reload server, reduced to its watch list. -/
structure Server where
  watched : List FPath

/-- `server.unwatch(p)` wrapped in `try/except ValueError: pass`: remove the
path if watched, silently do nothing otherwise. -/
def Server.unwatch (sv : Server) (p : FPath) : Server :=
  ⟨sv.watched.filter (fun q => q ≠ p)⟩

/-- `server.watch(p)`. -/
def Server.watch (sv : Server) (p : FPath) : Server :=
  ⟨sv.watched ++ [p]⟩

/-- `on_serve` of fix-serve-watch.py: drop the default watch on `docs`, then
watch each external repository location that was recorded in the config. -/
def on_serve (sv : Server) (config : ServeConfig) : Server :=
  let sv := sv.unwatch ["docs"]
  let sv := match config.mastg_repo with
    | some p => sv.watch p
    | none => sv
  let sv := match config.masvs_repo with
    | some p => sv.watch p
    | none => sv
  match config.maswe_repo with
  | some p => sv.watch p
  | none => sv

/- ### resolve_terms.py -/

/-- One record of the term index built by `get_terms`: the four values stored
per identifier (`url`, `title`, `nist_url`, `cwe_url`), each possibly absent. -/
structure Term where
  url : Option Chars
  title : Option Chars
  nist_url : Option Chars
  cwe_url : Option Chars
deriving DecidableEq

/-- Association-list lookup, the model of a Python `dict.get`. -/
def alookup {κ β : Type} [DecidableEq κ] : List (κ × β) → κ → Option β
  | [], _ => none
  | e :: t, k => if e.1 = k then some e.2 else alookup t k

/-- Python `str.lower()` (code-point-wise lowercasing). -/
def pyLower (s : Chars) : Chars := s.map Char.toLower

/-- Lexicographic comparison of strings by code point, Python's `<=` on `str`. -/
def lexLe : Chars → Chars → Bool
  | [], _ => true
  | _ :: _, [] => false
  | a :: as, b :: bs => if a < b then true else if b < a then false else lexLe as bs

/-- The sort key of the glossary index: `(term.get("title") or "").lower()`. -/
def termSortKey (t : Term) : Chars := pyLower (t.title.getD [])

/-- The comparison used by `sorted(terms, key=...)`. -/
def termLe (a b : Term) : Bool := lexLe (termSortKey a) (termSortKey b)

/-- `sorted(terms, key=lambda term: (term.get("title") or "").lower())`:
Python's sort is stable, as is `List.mergeSort`. -/
def sortTermsByTitle (terms : List Term) : List Term := List.mergeSort terms termLe

/-- `f"[{term['title']}]({term['url']})"` for a term that passed the
title/url guard. -/
def mkTermLink (t : Term) : Chars :=
  ("[").toList ++ t.title.getD [] ++ ("](").toList ++ t.url.getD [] ++ (")").toList

/-- Python `sep.join(parts)`. -/
def joinSep (sep : Chars) : List Chars → Chars
  | [] => []
  | [x] => x
  | x :: y :: rest => x ++ sep ++ joinSep sep (y :: rest)

/-- The glossary-index branch of `on_page_markdown` in resolve_terms.py:
sort the term records, keep those with a truthy title and url, and append the
`<br/>`-joined links after a leading `<br/>`. -/
def resolve_terms_index (markdown : Chars) (terms : List Term) : Chars :=
  markdown ++ ("<br/>").toList ++
    joinSep ("<br/>").toList
      (((sortTermsByTitle terms).filter
          (fun t => pyTruthy t.title && pyTruthy t.url)).map mkTermLink)

/-- `os.path.basename`: everything after the last `/`. -/
def basename (p : Chars) : Chars := (p.reverse.takeWhile (fun c => c ≠ '/')).reverse

/-- The stem of `os.path.splitext`: cut at the last dot, except that a
basename consisting only of leading dots before that dot is not split. -/
def splitextStem (b : Chars) : Chars :=
  match b.reverse.dropWhile (fun c => c ≠ '.') with
  | [] => b
  | _ :: stemRev => if stemRev.all (fun c => c = '.') then b else stemRev.reverse

/-- The literal part of the term-page pattern `^.*terms/MASTG-TERM-\d{4}.md`. -/
def termPagePat : Chars := ("terms/MASTG-TERM-").toList

/-- Does the core of the term-page regex (`terms/MASTG-TERM-` then four
digits, one arbitrary character — the unescaped dot — and `md`) match at the
start of `s`, with arbitrary trailing text? -/
def termCoreMatch (s : Chars) : Bool :=
  termPagePat.isPrefixOf s &&
  (match s.drop termPagePat.length with
   | d1 :: d2 :: d3 :: d4 :: _ :: 'm' :: 'd' :: _ =>
     d1.isDigit && d2.isDigit && d3.isDigit && d4.isDigit
   | _ => false)

/-- `re.match(r"^.*terms/MASTG-TERM-\d{4}.md", path)` as a Boolean: the
leading `.*` makes this a search for the core pattern at any position. -/
def termPageRe : Chars → Bool
  | [] => false
  | c :: rest => termCoreMatch (c :: rest) || termPageRe rest

/-- The `references` string built for a term page: the heading, then the NIST
link when the URL is truthy, then the CWE link when that URL is truthy. -/
def referencesBlock (n c : Option Chars) : Chars :=
  ("## Other Framework References").toList
    ++ (if pyTruthy n then ("\n\n[NIST](").toList ++ n.getD [] ++ (")").toList else [])
    ++ (if pyTruthy c then ("\n\n[CWE](").toList ++ c.getD [] ++ (")").toList else [])

/-- `on_page_markdown` of resolve_terms.py.  The term index is passed as an
association list (the `config["terms"]` dict). -/
def on_page_markdown_terms (path markdown : Chars) (terms : List (Chars × Term)) : Chars :=
  if (("terms/index.md").toList).isSuffixOf path then
    resolve_terms_index markdown (terms.map Prod.snd)
  else if !path.isEmpty && termPageRe path then
    let term_id := splitextStem (basename path)
    match alookup terms term_id with
    | some term =>
      if pyTruthy term.nist_url || pyTruthy term.cwe_url then
        markdown ++ ("\n\n\n").toList ++ referencesBlock term.nist_url term.cwe_url
      else markdown
    | none => markdown
  else markdown

/- ### combine-repos.py: the controls-page rewrite of structure_masvs -/

/-- The colour constant `MAS_BLUE` of combine-repos.py. -/
def MAS_BLUE : Chars := ("499FFF").toList

/-- The literal part of the control regex `## Control\n\n([^#]*)\n\n`. -/
def ctrlPat : Chars := ("## Control\n\n").toList

/-- The literal part of the description regex `## Description\n\n(.*)`. -/
def descPat : Chars := ("## Description\n\n").toList

/-- Does `"\n\n"` occur in `rest` starting at offset `k`? -/
def nnStartsAt (rest : Chars) (k : Nat) : Bool :=
  (("\n\n").toList).isPrefixOf (rest.drop k)

/-- Backtracking of the greedy `[^#]*`: the largest group length `k` (at most
the length of the run of non-`#` characters) after which `"\n\n"` follows. -/
def greedyScan (rest : Chars) : Nat → Option Nat
  | 0 => if nnStartsAt rest 0 then some 0 else none
  | k + 1 => if nnStartsAt rest (k + 1) then some (k + 1) else greedyScan rest k

/-- One attempt of the control regex at the start of `s`: the literal
`## Control\n\n`, then the greedy `[^#]*` group, then `\n\n`. -/
def matchControlAt (s : Chars) : Option Chars :=
  if ctrlPat.isPrefixOf s then
    let rest := s.drop ctrlPat.length
    match greedyScan rest (rest.takeWhile (fun c => c ≠ '#')).length with
    | some k => some (rest.take k)
    | none => none
  else none

/-- `re.search` for the control regex: try every start position from the left
and return the first successful group. -/
def reSearchControl : Chars → Option Chars
  | [] => none
  | c :: rest =>
    match matchControlAt (c :: rest) with
    | some g => some g
    | none => reSearchControl rest

/-- One attempt of the description regex at the start of `s`: the literal
`## Description\n\n`, then `(.*)` — which, without DOTALL, captures only up to
the next newline. -/
def matchDescAt (s : Chars) : Option Chars :=
  if descPat.isPrefixOf s then
    some ((s.drop descPat.length).takeWhile (fun c => c ≠ '\n'))
  else none

/-- `re.search` for the description regex. -/
def reSearchDesc : Chars → Option Chars
  | [] => none
  | c :: rest =>
    match matchDescAt (c :: rest) with
    | some g => some g
    | none => reSearchDesc rest

/-- The fixed page template assembled by `structure_masvs` for each controls
page: heading, styled paragraph, blue rule, then the description content. -/
def controlsTemplate (control_id control_content description_content : Chars) : Chars :=
  ("# ").toList ++ control_id ++ ("\n\n").toList
    ++ ("<p style=\"font-size: 2em\">").toList ++ control_content ++ ("</p>\n\n").toList
    ++ ("<hr style=\"height: 0.2em; background-color: #").toList ++ MAS_BLUE
    ++ ("; border: 0;\" />\n\n").toList
    ++ description_content ++ ("\n").toList

/-- The per-page body of the controls loop in `structure_masvs`: extract the
two regex groups (a failed match raises, modelled as `none`), strip them, and
re-emit the template. -/
def structure_masvs_page (control_id content : Chars) : Option Chars :=
  match reSearchControl content, reSearchDesc content with
  | some c, some d => some (controlsTemplate control_id (pyStrip c) (pyStrip d))
  | _, _ => none

/-- Modelled from the spec: the output which claim C1 asserts for a controls
page whose `## Control` section holds `control_text` and whose
`## Description` section holds `description_text` — the fixed template with
the whole (trimmed) section texts. -/
def claimedControlsPage (control_id control_text description_text : Chars) : Chars :=
  controlsTemplate control_id (pyStrip control_text) (pyStrip description_text)

/- ### combine-repos.py: the file-system model

A file system is a set of directories plus a map from file paths to contents,
both keyed by segment lists.  `shutil.rmtree` removes a whole subtree,
`mkdir(parents=True, exist_ok=True)` adds a path and its ancestors as
directories, and `shutil.copytree(..., dirs_exist_ok=True)` re-roots every
directory and file under the source (sources at the call sites are
directories).  Relative path segments such as `..` are kept as opaque
segment names, exactly as the Python code never normalises them. -/

/-- Membership of a path in a directory list. -/
def listHas : List FPath → FPath → Bool
  | [], _ => false
  | d :: t, p => if d = p then true else listHas t p

/-- The file-system state. -/
structure FS where
  dirs : List FPath
  files : List (FPath × Chars)
deriving DecidableEq

/-- `Path.is_dir()`. -/
def dirMem (fs : FS) (p : FPath) : Bool := listHas fs.dirs p

/-- `Path.exists()`: a directory or a file. -/
def fsExists (fs : FS) (p : FPath) : Bool := dirMem fs p || (alookup fs.files p).isSome

/-- Is `a` a path prefix (ancestor or equal) of `b`? -/
def isPre : FPath → FPath → Bool
  | [], _ => true
  | _ :: _, [] => false
  | a :: as, b :: bs => if a = b then isPre as bs else false

/-- All non-empty prefixes of a path, shortest first. -/
def prefixesOf : FPath → List FPath
  | [] => []
  | s :: rest => [s] :: (prefixesOf rest).map (fun q => s :: q)

/-- `Path.parent`. -/
def parentOf (p : FPath) : FPath := p.dropLast

/-- `shutil.rmtree`: delete the subtree rooted at `p`. -/
def rmtree (fs : FS) (p : FPath) : FS :=
  ⟨fs.dirs.filter (fun d => !isPre p d), fs.files.filter (fun e => !isPre p e.1)⟩

/-- `p.mkdir(parents=True, exist_ok=True)`. -/
def mkdirp (fs : FS) (p : FPath) : FS := ⟨prefixesOf p ++ fs.dirs, fs.files⟩

/-- Move a path from under `src` to the corresponding path under `dst`. -/
def reroot (src dst p : FPath) : FPath := dst ++ p.drop src.length

/-- `shutil.copytree(src, dst, dirs_exist_ok=True)` for a directory source:
every directory and file under `src` reappears under `dst`, copied files
shadowing existing ones. -/
def copytree (fs : FS) (src dst : FPath) : FS :=
  ⟨(fs.dirs.filterMap
      (fun d => if isPre src d then some (reroot src dst d) else none)) ++ fs.dirs,
   (fs.files.filterMap
      (fun e => if isPre src e.1 then some (reroot src dst e.1, e.2) else none)) ++ fs.files⟩

/-- `clean_and_copy` of combine-repos.py: delete any existing destination,
create the destination's parent, then either warn and create an empty
destination directory (missing source) or deep-copy the source. -/
def clean_and_copy (fs : FS) (source destination : FPath) : FS :=
  let fs1 := if fsExists fs destination then rmtree fs destination else fs
  let fs2 := mkdirp fs1 (parentOf destination)
  if fsExists fs2 source = false then mkdirp fs2 destination
  else copytree fs2 source destination

/-- Well-formedness of a file system as found on disk: every proper non-empty
path prefix of a directory or of a file is itself a directory. -/
def FS.closedb (fs : FS) : Bool :=
  fs.dirs.all (fun d => (prefixesOf d).all (fun q => q = d || listHas fs.dirs q)) &&
  fs.files.all (fun e => (prefixesOf e.1).all (fun q => q = e.1 || listHas fs.dirs q))

/- ### combine-repos.py: the full pre-build merge pass -/

/-- `str(path)`: segments joined with `/`. -/
def joinPath : FPath → Chars
  | [] => []
  | [s] => s.toList
  | s :: rest => s.toList ++ '/' :: joinPath rest

/-- The final path segment (`Path.name`). -/
def lastSeg (p : FPath) : String := p.getLastD ""

/-- Python `str.endswith`. -/
def strEndsWith (s suf : String) : Bool := (suf.toList).isSuffixOf (s.toList)

/-- Python `str.startswith`. -/
def strStartsWith (s t : String) : Bool := (t.toList).isPrefixOf (s.toList)

/-- `Path(base).rglob("*.md")`: strict descendants of `base` ending in `.md`. -/
def mdSel (base : FPath) (p : FPath) : Bool :=
  isPre base p && (p ≠ base) && strEndsWith (lastSeg p) ".md"

/-- `find_md_files`: `rglob("*.md")` minus paths whose string form contains
`/node_modules/` or `/.`. -/
def find_md_sel (base : FPath) (p : FPath) : Bool :=
  mdSel base p && !containsSub ("/node_modules/").toList (joinPath p)
    && !containsSub ("/.").toList (joinPath p)

/-- `replace_in_file`/`batch_replace` over every file selected by `sel`:
read, transform and rewrite each file's content. -/
def applyToFiles (fs : FS) (sel : FPath → Bool) (f : Chars → Chars) : FS :=
  ⟨fs.dirs, fs.files.map (fun e => if sel e.1 then (e.1, f e.2) else e)⟩

/-- `open(p, "w").write(c)` (the parent directory already exists). -/
def writeFile (fs : FS) (p : FPath) (c : Chars) : FS := ⟨fs.dirs, (p, c) :: fs.files⟩

/-- The tests-beta copy loop: every file under `src` is copied to the
corresponding path under `dst`, creating parent directories. -/
def copyFilesInto (fs : FS) (src dst : FPath) : FS :=
  let copied := fs.files.filterMap
    (fun e => if isPre src e.1 && (e.1 ≠ src)
      then some (reroot src dst e.1, e.2) else none)
  ⟨(copied.flatMap (fun e => prefixesOf (parentOf e.1))) ++ fs.dirs, copied ++ fs.files⟩

/-- The file-name pattern `0x0*.md` of the chapter-file glob. -/
def glob0x0name (n : String) : Bool :=
  strStartsWith n "0x0" && strEndsWith n ".md" && decide (6 ≤ n.length)

/-- `for mdfile in document_dir.glob("0x0*.md"): shutil.copy(mdfile,
mastg_local_dir / mdfile.name)`. -/
def copy0x0Files (fs : FS) (docdir : FPath) : FS :=
  let copied := fs.files.filterMap
    (fun e => if e.1.length = docdir.length + 1 && isPre docdir e.1
        && glob0x0name (lastSeg e.1)
      then some ((["docs", "MASTG", lastSeg e.1] : FPath), e.2) else none)
  ⟨fs.dirs, copied ++ fs.files⟩

/-- `Path(masvs_local_dir).rglob("controls/*.md")`: a `.md` file directly
inside a directory named `controls`, anywhere under `docs/MASVS`. -/
def controlsSel (p : FPath) : Bool :=
  isPre ["docs", "MASVS"] p &&
    (match p.reverse with
     | name :: parent :: _ => (parent = "controls") && strEndsWith name ".md"
     | _ => false)

/-- `Path.stem`: the final segment without its extension. -/
def stemOfPath (p : FPath) : Chars := splitextStem ((lastSeg p).toList)

/-- Transform the contents of all selected files, failing (as the unhandled
`AttributeError` does) when any transform fails. -/
def mapFilesE (f : FPath → Chars → Option Chars) (sel : FPath → Bool) :
    List (FPath × Chars) → Option (List (FPath × Chars))
  | [] => some []
  | e :: t =>
    if sel e.1 then
      match f e.1 e.2 with
      | some c => (mapFilesE f sel t).map (fun r => (e.1, c) :: r)
      | none => none
    else (mapFilesE f sel t).map (fun r => e :: r)

/-- `locate_external_repo` checking directories of the modelled file system,
with the exception carried as a message string. -/
def locateE (fs : FS) (repo_name : String) : Except String FPath :=
  match locate_external_repo (fun p => dirMem fs p) repo_name with
  | .ok p => .ok p
  | .error _ => .error ("Error: Could not find " ++ repo_name ++ " repository.")

/-- The pattern `src="Images/` of the MASTG image rewrites. -/
def srcImagesPat : Chars := ("src=\"Images/").toList

/-- The nine MASTG content directories copied by `structure_mastg`. -/
def mastg_directories : List String :=
  ["knowledge", "tests", "techniques", "tools", "apps", "demos", "rules",
   "utils", "best-practices"]

/-- The per-subdirectory relative image paths (`rel_paths`) of
`structure_mastg`, in iteration order. -/
def mastg_rel_paths : List (String × Chars) :=
  [("knowledge", ("../../../../../assets/Images/").toList),
   ("tests", ("../../../../../assets/Images/").toList),
   ("techniques", ("../../../../../assets/Images/").toList),
   ("tools", ("../../../../../assets/Images/").toList),
   ("apps", ("../../../../../assets/Images/").toList),
   ("best-practices", ("../../../../../assets/Images/").toList),
   ("demos", ("../../../../../assets/Images/").toList)]

/-- The synthesized minimal MASTG index page. -/
def syntheticIndex : Chars :=
  ("# Mobile Application Security Testing Guide\n\nThis is the MASTG index page.\n").toList

/-- `structure_mastg` of combine-repos.py. -/
def structure_mastg (fs : FS) : Except String (FS × FPath) := do
  let mastg_repo_dir ← locateE fs "mastg"
  let mastg_local_dir : FPath := ["docs", "MASTG"]
  let images_dir : FPath := ["docs", "assets", "Images"]
  let fs := mkdirp fs mastg_local_dir
  let fs := mkdirp fs images_dir
  let fs := mastg_directories.foldl
    (fun acc d => clean_and_copy acc (mastg_repo_dir ++ [d]) (mastg_local_dir ++ [d])) fs
  let tests_beta_dir := mastg_repo_dir ++ ["tests-beta"]
  let fs := if fsExists fs tests_beta_dir
    then copyFilesInto fs tests_beta_dir (mastg_local_dir ++ ["tests"]) else fs
  let document_dir := if fsExists fs (mastg_repo_dir ++ ["Document"])
    then mastg_repo_dir ++ ["Document"] else mastg_repo_dir ++ ["docs"]
  let fs ←
    if !fsExists fs document_dir || !fsExists fs (document_dir ++ ["index.md"]) then
      pure (writeFile fs (mastg_local_dir ++ ["index.md"]) syntheticIndex)
    else
      match alookup fs.files (document_dir ++ ["index.md"]) with
      | some c => pure (writeFile fs (mastg_local_dir ++ ["index.md"]) c)
      | none => throw "index.md is not a regular file"
  let fs := if fsExists fs document_dir then copy0x0Files fs document_dir else fs
  let fs := if fsExists fs (document_dir ++ ["Images"])
    then copytree fs (document_dir ++ ["Images"]) images_dir
    else mkdirp fs images_dir
  let fs := mastg_rel_paths.foldl
    (fun acc pr => applyToFiles acc (find_md_sel (mastg_local_dir ++ [pr.1]))
      (replaceAll srcImagesPat (("src=\"").toList ++ pr.2))) fs
  let fs := applyToFiles fs (find_md_sel mastg_local_dir)
    (fun c => replaceAll ("Document/").toList []
      (replaceAll srcImagesPat ("src=\"../../../assets/Images/").toList c))
  pure (fs, mastg_repo_dir)

/-- `structure_maswe` of combine-repos.py. -/
def structure_maswe (fs : FS) : Except String (FS × FPath) := do
  let maswe_repo_dir ← locateE fs "maswe"
  let maswe_local_dir : FPath := ["docs", "MASWE"]
  let fs := clean_and_copy fs (maswe_repo_dir ++ ["weaknesses"]) maswe_local_dir
  let fs := applyToFiles fs (find_md_sel maswe_local_dir)
    (replaceAll ("Document/").toList ("MASTG/").toList)
  pure (fs, maswe_repo_dir)

/-- `structure_masvs` of combine-repos.py. -/
def structure_masvs (fs : FS) : Except String (FS × FPath) := do
  let masvs_repo_dir ← locateE fs "masvs"
  let masvs_local_dir : FPath := ["docs", "MASVS"]
  let fs := clean_and_copy fs (masvs_repo_dir ++ ["Document"]) masvs_local_dir
  let fs := clean_and_copy fs (masvs_repo_dir ++ ["controls"])
    (masvs_local_dir ++ ["controls"])
  let masvs_images_dir : FPath := ["docs", "assets", "MASVS", "Images"]
  let fs := mkdirp fs masvs_images_dir
  let fs ←
    if fsExists fs (masvs_local_dir ++ ["images"]) then
      pure (copytree fs (masvs_local_dir ++ ["images"]) masvs_images_dir)
    else throw "shutil.copytree: docs/MASVS/images does not exist"
  let fs := applyToFiles fs
    (fun p => mdSel masvs_local_dir p && containsSub ("controls").toList (joinPath p))
    (replaceAll ("images/").toList ("../../../assets/MASVS/Images/").toList)
  let fs := applyToFiles fs
    (fun p => mdSel masvs_local_dir p && !containsSub ("controls").toList (joinPath p))
    (replaceAll ("images/").toList ("../../assets/MASVS/Images/").toList)
  match mapFilesE (fun p c => structure_masvs_page (stemOfPath p) c) controlsSel fs.files with
  | some fl => pure (⟨fs.dirs, fl⟩, masvs_repo_dir)
  | none => throw "AttributeError: controls page did not match"

/-- `on_pre_build` of combine-repos.py: run the three mergers in order and
record the located repositories. -/
def on_pre_build (fs : FS) : Except String (FS × FPath × FPath × FPath) := do
  let (fs, mastg_repo) ← structure_mastg fs
  let (fs, maswe_repo) ← structure_maswe fs
  let (fs, masvs_repo) ← structure_masvs fs
  pure (fs, mastg_repo, maswe_repo, masvs_repo)

/-- Is an `Except` value a success? -/
def isOkE {ε α : Type} : Except ε α → Bool
  | .ok _ => true
  | .error _ => false

/-- The resulting file system of a successful merge pass. -/
def passFS : Except String (FS × FPath × FPath × FPath) → FS
  | .ok x => x.1
  | .error _ => ⟨[], []⟩

/-- A concrete starting state for the idempotence counterexample: the three
external repositories exist (MASVS with an empty `Document/images`), and one
stale markdown file sits directly under `docs/MASTG`. -/
def c8fs0 : FS :=
  ⟨[["repos"], ["repos", "mastg"], ["repos", "masvs"], ["repos", "maswe"],
    ["repos", "masvs", "Document"], ["repos", "masvs", "Document", "images"],
    ["docs"], ["docs", "MASTG"]],
   [(["docs", "MASTG", "stale.md"], ("DocumDocument/ent/").toList)]⟩

/-- The tree after one merge pass from `c8fs0`. -/
def c8run1 : FS := passFS (on_pre_build c8fs0)

/-- The tree after a second merge pass with unchanged sources. -/
def c8run2 : FS := passFS (on_pre_build c8run1)

/- ### Theorems -/

/-- Claim C4: a page whose source path contains `"checklists/MASVS-"` is
rewritten to the fixed banner block, two newlines, then the original content;
any other page passes through unchanged. -/
theorem c4_banner (path markdown : Chars) :
    (containsSub ("checklists/MASVS-").toList path = true →
      on_page_markdown_banner path markdown =
        bannerBlock ++ ("\n\n").toList ++ markdown) ∧
    (containsSub ("checklists/MASVS-").toList path = false →
      on_page_markdown_banner path markdown = markdown) := by
  refine ⟨fun h => ?_, fun h => ?_⟩
  · simp only [on_page_markdown_banner, bannerBlock]
    rw [if_pos h]
  · simp only [on_page_markdown_banner]
    rw [if_neg (by rw [h]; simp)]

/-- Witness for C4, at a matching and at a non-matching concrete path. -/
theorem c4_banner_witness :
    on_page_markdown_banner ("checklists/MASVS-STORAGE.md").toList ("body").toList =
      bannerBlock ++ ("\n\n").toList ++ ("body").toList ∧
    on_page_markdown_banner ("MASTG/index.md").toList ("body").toList = ("body").toList :=
  ⟨(c4_banner ("checklists/MASVS-STORAGE.md").toList ("body").toList).1 (by decide),
   (c4_banner ("MASTG/index.md").toList ("body").toList).2 (by decide)⟩

/-- Claim C2: when none of the three candidate directories exists,
`locate_external_repo` fails with an error naming all attempted candidates. -/
theorem c2_locate_error (is_dir : FPath → Bool) (repo_name : String)
    (h : ∀ p ∈ repo_candidates repo_name, is_dir p = false) :
    locate_external_repo is_dir repo_name = .error (repo_candidates repo_name) := by
  have hf : (repo_candidates repo_name).find? is_dir = none := by
    apply List.find?_eq_none.mpr
    intro p hp
    simp [h p hp]
  simp [locate_external_repo, hf]

/-- Witness for C2 with a predicate under which no candidate is a directory. -/
theorem c2_locate_error_witness :
    locate_external_repo (fun _ => false) "mastg" =
      .error (repo_candidates "mastg") :=
  c2_locate_error (fun _ => false) "mastg" (by intro p _; rfl)

/-- Claim C7: when at least one candidate is a directory,
`locate_external_repo` returns the first such candidate in order. -/
theorem c7_locate_first (is_dir : FPath → Bool) (repo_name : String)
    (h : ∃ p ∈ repo_candidates repo_name, is_dir p = true) :
    ∃ i : Fin (repo_candidates repo_name).length,
      locate_external_repo is_dir repo_name = .ok ((repo_candidates repo_name).get i) ∧
      is_dir ((repo_candidates repo_name).get i) = true ∧
      ∀ j : Fin (repo_candidates repo_name).length,
        j < i → is_dir ((repo_candidates repo_name).get j) = false := by
  by_cases h0 : is_dir ["repos", repo_name] = true
  · refine ⟨⟨0, by simp [repo_candidates]⟩, ?_, ?_, ?_⟩
    · simp [locate_external_repo, repo_candidates, List.find?, h0]
    · simpa [repo_candidates] using h0
    · intro j hj
      exact absurd hj (by simp [Fin.lt_def])
  · by_cases h1 : is_dir ["..", repo_name] = true
    · refine ⟨⟨1, by simp [repo_candidates]⟩, ?_, ?_, ?_⟩
      · simp [locate_external_repo, repo_candidates, List.find?,
          Bool.of_not_eq_true h0, h1]
      · simpa [repo_candidates] using h1
      · intro j hj
        have : j.val = 0 := by
          have := hj
          simp [Fin.lt_def] at this
          omega
        have hget : (repo_candidates repo_name).get j = ["repos", repo_name] := by
          rcases j with ⟨jv, hjv⟩
          simp at this
          subst this
          simp [repo_candidates]
        rw [hget]
        exact Bool.of_not_eq_true h0
    · by_cases h2 : is_dir [".", repo_name] = true
      · refine ⟨⟨2, by simp [repo_candidates]⟩, ?_, ?_, ?_⟩
        · simp [locate_external_repo, repo_candidates, List.find?,
            Bool.of_not_eq_true h0, Bool.of_not_eq_true h1, h2]
        · simpa [repo_candidates] using h2
        · intro j hj
          have hj2 : j.val = 0 ∨ j.val = 1 := by
            have := hj
            simp [Fin.lt_def] at this
            omega
          rcases j with ⟨jv, hjv⟩
          rcases hj2 with h | h <;> simp at h <;> subst h <;>
            simp [repo_candidates, Bool.of_not_eq_true h0, Bool.of_not_eq_true h1]
      · exfalso
        rcases h with ⟨p, hp, hd⟩
        simp [repo_candidates] at hp
        rcases hp with rfl | rfl | rfl
        · exact h0 hd
        · exact h1 hd
        · exact h2 hd

/-- Witness for C7: the parent-directory candidate is the first existing one. -/
theorem c7_locate_first_witness :
    ∃ i : Fin (repo_candidates "masvs").length,
      locate_external_repo (fun p => p = ["..", "masvs"] || p = [".", "masvs"]) "masvs" =
        .ok ((repo_candidates "masvs").get i) ∧
      (fun p => p = ["..", "masvs"] || p = [".", "masvs"]) ((repo_candidates "masvs").get i) = true ∧
      ∀ j : Fin (repo_candidates "masvs").length, j < i →
        (fun p => p = ["..", "masvs"] || p = [".", "masvs"]) ((repo_candidates "masvs").get j) = false :=
  c7_locate_first (fun p => p = ["..", "masvs"] || p = [".", "masvs"]) "masvs"
    ⟨["..", "masvs"], by simp [repo_candidates], by simp⟩

/-- Claim C9: after `on_serve`, a path is watched exactly when it either was
already watched (and is not the removed default `docs` watch) or is one of the
external repository locations recorded by the merger; unrecorded locations are
skipped without error. -/
theorem c9_serve_watch (sv : Server) (config : ServeConfig) (q : FPath) :
    q ∈ (on_serve sv config).watched ↔
      ((q ∈ sv.watched ∧ q ≠ ["docs"]) ∨
        config.mastg_repo = some q ∨ config.masvs_repo = some q ∨
        config.maswe_repo = some q) := by
  rcases config with ⟨mg, mv, mw⟩
  cases mg <;> cases mv <;> cases mw <;>
    simp [on_serve, Server.unwatch, Server.watch, List.mem_filter,
      @eq_comm _ q]

/-- Totality of the string comparison: one of `lexLe a b`, `lexLe b a` holds. -/
theorem lexLe_total : ∀ a b : Chars, lexLe a b = true ∨ lexLe b a = true := by
  intro a
  induction a with
  | nil => intro b; left; rfl
  | cons x xs ih =>
    intro b
    cases b with
    | nil => right; rfl
    | cons y ys =>
      by_cases hxy : x < y
      · left; simp [lexLe, hxy]
      · by_cases hyx : y < x
        · right; simp [lexLe, hyx]
        · rcases ih ys with h | h
          · left; simp [lexLe, hxy, hyx, h]
          · right; simp [lexLe, hxy, hyx, h]

/-- Transitivity of the string comparison. -/
theorem lexLe_trans :
    ∀ a b c : Chars, lexLe a b = true → lexLe b c = true → lexLe a c = true := by
  intro a
  induction a with
  | nil => intro b c _ _; rfl
  | cons x xs ih =>
    intro b c hab hbc
    cases b with
    | nil => simp [lexLe] at hab
    | cons y ys =>
      cases c with
      | nil => simp [lexLe] at hbc
      | cons z zs =>
        simp only [lexLe] at hab hbc ⊢
        by_cases hxy : x < y
        · by_cases hyz : y < z
          · simp [lt_trans hxy hyz]
          · by_cases hzy : z < y
            · simp [hyz, hzy] at hbc
            · have hyz' : y = z := le_antisymm (le_of_not_lt hzy) (le_of_not_lt hyz)
              subst hyz'
              simp [hxy]
        · by_cases hyx : y < x
          · simp [hxy, hyx] at hab
          · have hxy' : x = y := le_antisymm (le_of_not_lt hyx) (le_of_not_lt hxy)
            subst hxy'
            by_cases hyz : x < z
            · simp [hyz]
            · by_cases hzy : z < x
              · simp [hyz, hzy] at hbc
              · simp [hxy, hyx] at hab
                simp [hyz, hzy] at hbc
                simp [hyz, hzy, ih ys zs hab hbc]

/-- Claim C5: on the glossary index page, the appended list consists of one
link per term record, in an order that is a permutation of the index sorted
case-insensitively by title, with exactly N links for N well-formed terms. -/
theorem c5_glossary_index (markdown : Chars) (terms : List Term)
    (htitle : ∀ t ∈ terms, pyTruthy t.title = true)
    (hurl : ∀ t ∈ terms, pyTruthy t.url = true)
    (hnodupT : (terms.map Term.title).Nodup)
    (hnodupU : (terms.map Term.url).Nodup) :
    resolve_terms_index markdown terms =
      markdown ++ ("<br/>").toList ++
        joinSep ("<br/>").toList ((sortTermsByTitle terms).map mkTermLink) ∧
    (sortTermsByTitle terms).Perm terms ∧
    List.Pairwise (fun a b => termLe a b = true) (sortTermsByTitle terms) ∧
    ((sortTermsByTitle terms).map mkTermLink).length = terms.length := by
  have hperm : (sortTermsByTitle terms).Perm terms := List.mergeSort_perm terms termLe
  have hfilter : (sortTermsByTitle terms).filter
      (fun t => pyTruthy t.title && pyTruthy t.url) = sortTermsByTitle terms := by
    apply List.filter_eq_self.mpr
    intro t ht
    have ht' : t ∈ terms := hperm.mem_iff.mp ht
    simp [htitle t ht', hurl t ht']
  refine ⟨?_, hperm, ?_, ?_⟩
  · simp [resolve_terms_index, hfilter]
  · have htrans : ∀ a b c : Term, termLe a b → termLe b c → termLe a c := by
      intro a b c hab hbc
      unfold termLe at hab hbc ⊢
      exact lexLe_trans _ _ _ hab hbc
    have htotal : ∀ a b : Term, termLe a b || termLe b a := by
      intro a b
      rcases lexLe_total (termSortKey a) (termSortKey b) with h | h <;>
        simp [termLe, h]
    simpa [sortTermsByTitle] using @List.sorted_mergeSort Term termLe htrans htotal terms
  · rw [List.length_map]
    exact hperm.length_eq

/-- Witness for C5 on a concrete two-term index. -/
theorem c5_glossary_index_witness :
    resolve_terms_index ("md").toList
        [⟨some ("/u1/").toList, some ("beta").toList, none, none⟩,
         ⟨some ("/u2/").toList, some ("Alpha").toList, none, none⟩] =
      ("md").toList ++ ("<br/>").toList ++
        joinSep ("<br/>").toList
          ((sortTermsByTitle
              [⟨some ("/u1/").toList, some ("beta").toList, none, none⟩,
               ⟨some ("/u2/").toList, some ("Alpha").toList, none, none⟩]).map mkTermLink) ∧
    (sortTermsByTitle
        [⟨some ("/u1/").toList, some ("beta").toList, none, none⟩,
         ⟨some ("/u2/").toList, some ("Alpha").toList, none, none⟩]).Perm
      [⟨some ("/u1/").toList, some ("beta").toList, none, none⟩,
       ⟨some ("/u2/").toList, some ("Alpha").toList, none, none⟩] ∧
    List.Pairwise (fun a b => termLe a b = true)
      (sortTermsByTitle
        [⟨some ("/u1/").toList, some ("beta").toList, none, none⟩,
         ⟨some ("/u2/").toList, some ("Alpha").toList, none, none⟩]) ∧
    ((sortTermsByTitle
        [⟨some ("/u1/").toList, some ("beta").toList, none, none⟩,
         ⟨some ("/u2/").toList, some ("Alpha").toList, none, none⟩]).map mkTermLink).length =
      ([⟨some ("/u1/").toList, some ("beta").toList, none, none⟩,
        ⟨some ("/u2/").toList, some ("Alpha").toList, none, none⟩] : List Term).length :=
  c5_glossary_index ("md").toList
    [⟨some ("/u1/").toList, some ("beta").toList, none, none⟩,
     ⟨some ("/u2/").toList, some ("Alpha").toList, none, none⟩]
    (by decide) (by decide) (by decide) (by decide)

/-- Claim C10: when no term record has both a truthy title and a truthy url
(in particular when the index is empty), the glossary index page still gets
the lone separator `<br/>` appended. -/
theorem c10_empty_glossary (markdown : Chars) (terms : List Term)
    (h : ∀ t ∈ terms, pyTruthy t.title = false ∨ pyTruthy t.url = false) :
    resolve_terms_index markdown terms = markdown ++ ("<br/>").toList := by
  have hfilter : (sortTermsByTitle terms).filter
      (fun t => pyTruthy t.title && pyTruthy t.url) = [] := by
    apply List.filter_eq_nil_iff.mpr
    intro t ht
    have ht' : t ∈ terms := (List.mergeSort_perm terms termLe).mem_iff.mp ht
    rcases h t ht' with h' | h' <;> simp [h']
  simp [resolve_terms_index, hfilter, joinSep]

/-- Witness for C10: the empty index and an index entry lacking a title. -/
theorem c10_empty_glossary_witness :
    resolve_terms_index ("page").toList
        [⟨some ("/u/").toList, none, none, none⟩] =
      ("page").toList ++ ("<br/>").toList :=
  c10_empty_glossary ("page").toList
    [⟨some ("/u/").toList, none, none, none⟩] (by decide)

/-- Claim C6: on a page matching the four-digit term pattern, a term found in
the index with both reference URLs present gets the references section
appended with the NIST link first and the CWE link second; a missing term or a
term with neither URL leaves the page unchanged. -/
theorem c6_term_page (path markdown : Chars) (terms : List (Chars × Term))
    (h1 : (("terms/index.md").toList).isSuffixOf path = false)
    (h2 : path ≠ [])
    (h3 : termPageRe path = true) :
    (∀ t n c, alookup terms (splitextStem (basename path)) = some t →
      t.nist_url = some n → t.cwe_url = some c → n ≠ [] → c ≠ [] →
      on_page_markdown_terms path markdown terms =
        markdown ++ ("\n\n\n## Other Framework References\n\n[NIST](").toList ++ n ++
          (")\n\n[CWE](").toList ++ c ++ (")").toList) ∧
    (alookup terms (splitextStem (basename path)) = none →
      on_page_markdown_terms path markdown terms = markdown) ∧
    (∀ t, alookup terms (splitextStem (basename path)) = some t →
      pyTruthy t.nist_url = false → pyTruthy t.cwe_url = false →
      on_page_markdown_terms path markdown terms = markdown) := by
  have hEmpty : path.isEmpty = false := by
    cases path with
    | nil => exact absurd rfl h2
    | cons _ _ => rfl
  refine ⟨?_, ?_, ?_⟩
  · intro t n c hlook hn hc hne hce
    have hnE : n.isEmpty = false := by
      cases n with
      | nil => exact absurd rfl hne
      | cons _ _ => rfl
    have hcE : c.isEmpty = false := by
      cases c with
      | nil => exact absurd rfl hce
      | cons _ _ => rfl
    simp only [on_page_markdown_terms, h1, Bool.false_eq_true, if_false,
      hEmpty, h3, Bool.not_false, Bool.and_self, if_true, hlook]
    simp [pyTruthy, hn, hc, hnE, hcE, referencesBlock]
  · intro hlook
    simp only [on_page_markdown_terms, h1, Bool.false_eq_true, if_false,
      hEmpty, h3, Bool.not_false, Bool.and_self, if_true, hlook]
  · intro t hlook hn hc
    simp only [on_page_markdown_terms, h1, Bool.false_eq_true, if_false,
      hEmpty, h3, Bool.not_false, Bool.and_self, if_true, hlook]
    simp [hn, hc]

/-- Witness for C6, on a concrete term page with both reference URLs. -/
theorem c6_term_page_witness :
    on_page_markdown_terms ("MASTG/terms/MASTG-TERM-0042.md").toList ("body").toList
        [(("MASTG-TERM-0042").toList,
          ⟨some ("/MASTG/terms/MASTG-TERM-0042/").toList, some ("Tampering").toList,
           some ("https://nist.example/").toList, some ("https://cwe.example/").toList⟩)] =
      ("body").toList ++ ("\n\n\n## Other Framework References\n\n[NIST](").toList ++
        ("https://nist.example/").toList ++ (")\n\n[CWE](").toList ++
        ("https://cwe.example/").toList ++ (")").toList ∧
    on_page_markdown_terms ("MASTG/terms/MASTG-TERM-0042.md").toList ("body").toList [] =
      ("body").toList :=
  ⟨(c6_term_page ("MASTG/terms/MASTG-TERM-0042.md").toList ("body").toList
      [(("MASTG-TERM-0042").toList,
        ⟨some ("/MASTG/terms/MASTG-TERM-0042/").toList, some ("Tampering").toList,
         some ("https://nist.example/").toList, some ("https://cwe.example/").toList⟩)]
      (by decide) (by decide) (by decide)).1
    ⟨some ("/MASTG/terms/MASTG-TERM-0042/").toList, some ("Tampering").toList,
     some ("https://nist.example/").toList, some ("https://cwe.example/").toList⟩
    ("https://nist.example/").toList ("https://cwe.example/").toList
    (by decide) rfl rfl (by decide) (by decide),
   (c6_term_page ("MASTG/terms/MASTG-TERM-0042.md").toList ("body").toList []
      (by decide) (by decide) (by decide)).2.1 rfl⟩

/-- A list is a Boolean prefix of itself followed by anything. -/
theorem isPrefixOf_self_append (a b : Chars) : a.isPrefixOf (a ++ b) = true := by
  induction a with
  | nil => simp [List.isPrefixOf]
  | cons x xs ih => simpa [List.isPrefixOf] using ih

/-- Dropping the first list plus `n` more elements. -/
theorem drop_append_add {α : Type} (a b : List α) (n : Nat) :
    (a ++ b).drop (a.length + n) = b.drop n := by
  induction a with
  | nil => simp
  | cons x xs ih => simpa [Nat.succ_add] using ih

/-- `takeWhile` runs through a first block that satisfies the predicate. -/
theorem takeWhile_append_all (p : Char → Bool) (a b : Chars)
    (h : ∀ c ∈ a, p c = true) :
    (a ++ b).takeWhile p = a ++ b.takeWhile p := by
  induction a with
  | nil => simp
  | cons x xs ih =>
    have hx : p x = true := h x (by simp)
    simp only [List.cons_append, List.takeWhile_cons, hx, if_true]
    rw [ih (fun c hc => h c (by simp [hc]))]

/-- The greedy scan succeeds immediately when `"\n\n"` follows at offset `k`. -/
theorem greedyScan_pos (rest : Chars) (k : Nat) (h : nnStartsAt rest k = true) :
    greedyScan rest k = some k := by
  cases k <;> simp [greedyScan, h]

/-- The greedy scan backtracks by one when `"\n\n"` does not follow. -/
theorem greedyScan_step (rest : Chars) (k : Nat) (h : nnStartsAt rest (k + 1) = false) :
    greedyScan rest (k + 1) = greedyScan rest k := by
  simp [greedyScan, h]

/-- A successful attempt at the head position ends the search. -/
theorem reSearchControl_head (c : Char) (l g : Chars)
    (h : matchControlAt (c :: l) = some g) :
    reSearchControl (c :: l) = some g := by
  simp [reSearchControl, h]

/-- A successful attempt at the head position ends the search. -/
theorem reSearchDesc_head (c : Char) (l g : Chars)
    (h : matchDescAt (c :: l) = some g) :
    reSearchDesc (c :: l) = some g := by
  simp [reSearchDesc, h]

/-- A failed attempt at the head position moves the search right. -/
theorem reSearchDesc_cons_none (c : Char) (l : Chars)
    (h : matchDescAt (c :: l) = none) :
    reSearchDesc (c :: l) = reSearchDesc l := by
  simp [reSearchDesc, h]

/-- The description pattern starts with `#`, so it cannot match at a
non-`#` character. -/
theorem matchDescAt_nonhash (c : Char) (l : Chars) (h : c ≠ '#') :
    matchDescAt (c :: l) = none := by
  have hb : (('#' : Char) = c) = False := by
    simp [Ne.symm h]
  simp [matchDescAt, descPat, List.isPrefixOf, hb]

/-- The description search skips any block free of `#` characters. -/
theorem reSearchDesc_skip (pre l : Chars) (h : ∀ c ∈ pre, c ≠ '#') :
    reSearchDesc (pre ++ l) = reSearchDesc l := by
  induction pre with
  | nil => simp
  | cons x xs ih =>
    have hx : x ≠ '#' := h x (by simp)
    rw [List.cons_append, reSearchDesc_cons_none x (xs ++ l) (matchDescAt_nonhash x _ hx)]
    exact ih (fun c hc => h c (by simp [hc]))

theorem c1_controls_template (control_id T D : Chars) (hT : ∀ c ∈ T, c ≠ '#') :
    structure_masvs_page control_id
        (ctrlPat ++ T ++ ("\n\n").toList ++ descPat ++ D) =
      some (controlsTemplate control_id (pyStrip T)
        (pyStrip (D.takeWhile (fun c => c ≠ '\n')))) := by
  have hX : ctrlPat ++ T ++ ("\n\n").toList ++ descPat ++ D =
      ctrlPat ++ (T ++ (('\n' :: '\n' :: []) ++ (descPat ++ D))) := by
    simp [List.append_assoc]
  set Z : Chars := descPat ++ D with hZ
  set X : Chars := T ++ (('\n' :: '\n' :: []) ++ Z) with hXdef
  -- the run of non-'#' characters after the control literal
  have hZcons : Z = '#' :: (("# Description\n\n").toList ++ D) := rfl
  have hrun : X.takeWhile (fun c => decide (c ≠ '#')) = T ++ ('\n' :: '\n' :: []) := by
    rw [hXdef, takeWhile_append_all _ _ _ (fun c hc => by simp [hT c hc])]
    rw [hZcons]
    simp [List.takeWhile_cons]
  have e2 : nnStartsAt X (T.length + 2) = false := by
    have : X.drop (T.length + 2) = Z := by
      rw [hXdef, drop_append_add]
      rfl
    rw [nnStartsAt, this, hZcons]
    simp [List.isPrefixOf]
  have e1 : nnStartsAt X (T.length + 1) = false := by
    have : X.drop (T.length + 1) = '\n' :: Z := by
      rw [hXdef, drop_append_add]
      rfl
    rw [nnStartsAt, this, hZcons]
    simp [List.isPrefixOf]
  have e0 : nnStartsAt X T.length = true := by
    have : X.drop T.length = '\n' :: '\n' :: Z := by
      have := drop_append_add T (('\n' :: '\n' :: []) ++ Z) 0
      simpa [hXdef] using this
    rw [nnStartsAt, this]
    simp [List.isPrefixOf]
  have hscan : greedyScan X (T.length + 2) = some T.length := by
    rw [show T.length + 2 = (T.length + 1) + 1 from rfl,
      greedyScan_step _ _ e2, greedyScan_step _ _ e1, greedyScan_pos _ _ e0]
  have hmc : matchControlAt (ctrlPat ++ X) = some T := by
    rw [matchControlAt]
    rw [if_pos (isPrefixOf_self_append ctrlPat X)]
    simp only [List.drop_left, hrun, List.length_append, List.length_cons,
      List.length_nil]
    rw [show T.length + (0 + 1 + 1) = T.length + 2 from by omega, hscan]
    rw [hXdef]
    simp [List.take_left]
  have hctrl : reSearchControl (ctrlPat ++ X) = some T := by
    have hcons : ctrlPat ++ X = '#' :: (("# Control\n\n").toList ++ X) := rfl
    rw [hcons]
    exact reSearchControl_head _ _ _ (by rw [← hcons]; exact hmc)
  have hdh : matchDescAt Z = some (D.takeWhile (fun c => c ≠ '\n')) := by
    rw [hZ, matchDescAt]
    rw [if_pos (isPrefixOf_self_append descPat D)]
    simp [List.drop_left]
  have hdesc : reSearchDesc (ctrlPat ++ X) = some (D.takeWhile (fun c => c ≠ '\n')) := by
    have hsplit : ctrlPat ++ X =
        '#' :: '#' :: (((" Control\n\n").toList ++ (T ++ ('\n' :: '\n' :: []))) ++ Z) := by
      rw [hXdef]
      simp [ctrlPat, List.append_assoc]
    rw [hsplit]
    rw [reSearchDesc_cons_none _ _ (by
      rw [matchDescAt, if_neg]
      intro hpre
      rw [show descPat = '#' :: '#' :: ' ' :: 'D' :: ("escription\n\n").toList from rfl] at hpre
      simp [List.isPrefixOf] at hpre)]
    rw [reSearchDesc_cons_none _ _ (by
      rw [matchDescAt, if_neg]
      intro hpre
      rw [show descPat = '#' :: '#' :: ' ' :: 'D' :: ("escription\n\n").toList from rfl] at hpre
      simp [List.isPrefixOf] at hpre)]
    rw [reSearchDesc_skip _ _ (by
      intro c hc
      rcases List.mem_append.mp hc with hc1 | hc2
      · have hlit : ∀ x ∈ (" Control\n\n").toList, x ≠ '#' := by decide
        exact hlit c hc1
      · rcases List.mem_append.mp hc2 with hc3 | hc4
        · exact hT c hc3
        · have hnl : ∀ x ∈ ('\n' :: '\n' :: ([] : Chars)), x ≠ '#' := by decide
          exact hnl c hc4)]
    rw [hZcons]
    exact reSearchDesc_head _ _ _ (by rw [← hZcons]; exact hdh)
  rw [hX, structure_masvs_page, hctrl, hdesc]

set_option maxRecDepth 10000 in
theorem c1_counterexample :
    structure_masvs_page ("MASVS-STORAGE-1").toList
        (ctrlPat ++ ("The app securely stores sensitive data.").toList ++ ("\n\n").toList ++
          descPat ++ ("First line.\nSecond line.").toList) =
      some (controlsTemplate ("MASVS-STORAGE-1").toList
        ("The app securely stores sensitive data.").toList
        ("First line.").toList) ∧
    controlsTemplate ("MASVS-STORAGE-1").toList
        ("The app securely stores sensitive data.").toList
        ("First line.").toList ≠
      claimedControlsPage ("MASVS-STORAGE-1").toList
        ("The app securely stores sensitive data.").toList
        ("First line.\nSecond line.").toList := by
  constructor
  · decide
  · decide

theorem c1_controls_template_witness :
    structure_masvs_page ("MASVS-STORAGE-1").toList
        (ctrlPat ++ ("The app securely stores sensitive data.").toList ++ ("\n\n").toList ++
          descPat ++ ("The description line.").toList) =
      some (controlsTemplate ("MASVS-STORAGE-1").toList
        (pyStrip ("The app securely stores sensitive data.").toList)
        (pyStrip (("The description line.").toList.takeWhile (fun c => c ≠ '\n')))) :=
  c1_controls_template ("MASVS-STORAGE-1").toList
    ("The app securely stores sensitive data.").toList
    ("The description line.").toList (by decide)

/-- `isPre` is reflexive. -/
theorem isPre_refl (p : FPath) : isPre p p = true := by
  induction p with
  | nil => rfl
  | cons x xs ih => simp [isPre, ih]

/-- `isPre` is transitive. -/
theorem isPre_trans : ∀ a b c : FPath, isPre a b = true → isPre b c = true → isPre a c = true := by
  intro a
  induction a with
  | nil => intro b c _ _; rfl
  | cons x xs ih =>
    intro b c hab hbc
    cases b with
    | nil => simp [isPre] at hab
    | cons y ys =>
      cases c with
      | nil => simp [isPre] at hbc
      | cons z zs =>
        simp only [isPre] at hab hbc ⊢
        by_cases hxy : x = y
        · subst hxy
          simp only [if_pos rfl] at hab
          by_cases hyz : x = z
          · subst hyz
            simp only [if_pos rfl] at hbc ⊢
            exact ih ys zs hab hbc
          · simp [if_neg hyz] at hbc
        · simp [if_neg hxy] at hab

/-- A prefix is no longer than the whole. -/
theorem isPre_length : ∀ a b : FPath, isPre a b = true → a.length ≤ b.length := by
  intro a
  induction a with
  | nil => intro b _; simp
  | cons x xs ih =>
    intro b h
    cases b with
    | nil => simp [isPre] at h
    | cons y ys =>
      simp only [isPre] at h
      by_cases hxy : x = y
      · simp only [if_pos hxy] at h
        simpa using ih ys h
      · simp [if_neg hxy] at h

/-- Mutual prefixes are equal. -/
theorem isPre_antisymm : ∀ a b : FPath, isPre a b = true → isPre b a = true → a = b := by
  intro a
  induction a with
  | nil =>
    intro b _ hba
    cases b with
    | nil => rfl
    | cons y ys => simp [isPre] at hba
  | cons x xs ih =>
    intro b hab hba
    cases b with
    | nil => simp [isPre] at hab
    | cons y ys =>
      simp only [isPre] at hab hba
      by_cases hxy : x = y
      · subst hxy
        simp only [if_pos rfl] at hab hba
        rw [ih ys hab hba]
      · simp [if_neg hxy] at hab

/-- The parent is a prefix. -/
theorem isPre_parentOf (p : FPath) : isPre (parentOf p) p = true := by
  unfold parentOf
  induction p with
  | nil => rfl
  | cons x xs ih =>
    cases xs with
    | nil => rfl
    | cons y ys => simpa [List.dropLast, isPre] using ih

/-- Members of `prefixesOf r` are prefixes of `r`. -/
theorem mem_prefixesOf_isPre : ∀ r q : FPath, q ∈ prefixesOf r → isPre q r = true := by
  intro r
  induction r with
  | nil => intro q hq; simp [prefixesOf] at hq
  | cons x xs ih =>
    intro q hq
    simp only [prefixesOf, List.mem_cons, List.mem_map] at hq
    rcases hq with rfl | ⟨q', hq', rfl⟩
    · simp [isPre]
    · simp [isPre, ih q' hq']

/-- A non-empty prefix of `r` is a member of `prefixesOf r`. -/
theorem isPre_mem_prefixesOf : ∀ r q : FPath, q ≠ [] → isPre q r = true → q ∈ prefixesOf r := by
  intro r
  induction r with
  | nil =>
    intro q hne h
    cases q with
    | nil => exact absurd rfl hne
    | cons a as => simp [isPre] at h
  | cons x xs ih =>
    intro q hne h
    cases q with
    | nil => exact absurd rfl hne
    | cons a as =>
      simp only [isPre] at h
      by_cases hax : a = x
      · subst hax
        simp only [if_pos rfl] at h
        cases as with
        | nil => simp [prefixesOf]
        | cons b bs =>
          have hmem : (b :: bs) ∈ prefixesOf xs := ih (b :: bs) (by simp) h
          simp only [prefixesOf, List.mem_cons, List.mem_map]
          right
          exact ⟨b :: bs, hmem, rfl⟩
      · simp [if_neg hax] at h

/-- A non-empty path is one of its own prefixes. -/
theorem self_mem_prefixesOf (p : FPath) (h : p ≠ []) : p ∈ prefixesOf p :=
  isPre_mem_prefixesOf p p h (isPre_refl p)

/-- `listHas` is list membership. -/
theorem listHas_iff_mem (l : List FPath) (p : FPath) : listHas l p = true ↔ p ∈ l := by
  induction l with
  | nil => simp [listHas]
  | cons d t ih =>
    simp only [listHas, List.mem_cons]
    by_cases hdp : d = p
    · simp [hdp]
    · simp only [if_neg hdp, ih]
      constructor
      · exact Or.inr
      · rintro (rfl | hm)
        · exact absurd rfl hdp
        · exact hm

/-- `listHas` over an append. -/
theorem listHas_append (a b : List FPath) (p : FPath) :
    listHas (a ++ b) p = (listHas a p || listHas b p) := by
  induction a with
  | nil => simp [listHas]
  | cons d t ih =>
    by_cases hdp : d = p
    · simp [listHas, hdp]
    · simp [listHas, hdp, ih]

/-- `listHas` over a filter. -/
theorem listHas_filter (P : FPath → Bool) (l : List FPath) (p : FPath) :
    listHas (l.filter P) p = (P p && listHas l p) := by
  induction l with
  | nil => simp [listHas]
  | cons d t ih =>
    by_cases hdp : d = p
    · subst hdp
      cases hP : P d <;> simp [List.filter, hP, listHas, ih]
    · cases hP : P d <;> simp [List.filter, hP, listHas, hdp, ih]

/-- `alookup` over an append. -/
theorem alookup_append {β : Type} (a b : List (FPath × β)) (k : FPath) :
    alookup (a ++ b) k = ((alookup a k).or (alookup b k)) := by
  induction a with
  | nil => simp [alookup]
  | cons e t ih =>
    by_cases hek : e.1 = k
    · simp [alookup, hek]
    · simp [alookup, hek, ih]

/-- `alookup` over a filter on keys. -/
theorem alookup_filter {β : Type} (P : FPath → Bool) (l : List (FPath × β)) (k : FPath) :
    alookup (l.filter (fun e => P e.1)) k = if P k = true then alookup l k else none := by
  induction l with
  | nil => simp [alookup]
  | cons e t ih =>
    by_cases hek : e.1 = k
    · subst hek
      cases hP : P e.1 <;> simp [List.filter, hP, alookup, ih]
    · cases hP : P e.1 <;> simp [List.filter, hP, alookup, hek, ih]

/-- A successful lookup comes from a member entry. -/
theorem alookup_mem {β : Type} :
    ∀ (l : List (FPath × β)) (k : FPath) (v : β), alookup l k = some v → (k, v) ∈ l := by
  intro l
  induction l with
  | nil => intro k v h; simp [alookup] at h
  | cons e t ih =>
    intro k v h
    simp only [alookup] at h
    by_cases hek : e.1 = k
    · rw [if_pos hek] at h
      rcases e with ⟨ek, ev⟩
      simp only at hek h
      subst hek
      have hv : ev = v := by simpa using h
      subst hv
      exact List.mem_cons_self _ _
    · rw [if_neg hek] at h
      exact List.mem_cons_of_mem _ (ih k v h)

/-- Directory membership after `rmtree`. -/
theorem dirMem_rmtree (fs : FS) (d k : FPath) :
    dirMem (rmtree fs d) k = (!isPre d k && dirMem fs k) := by
  simp only [dirMem, rmtree]
  induction fs.dirs with
  | nil => simp [listHas]
  | cons x t ih =>
    by_cases hxk : x = k
    · subst hxk
      cases hP : isPre d x <;> simp [List.filter, hP, listHas, ih]
    · cases hP : isPre d x <;> simp [List.filter, hP, listHas, hxk, ih]

/-- File lookup after `rmtree`. -/
theorem alookup_rmtree (fs : FS) (d k : FPath) :
    alookup (rmtree fs d).files k =
      if isPre d k = true then none else alookup fs.files k := by
  simp only [rmtree]
  induction fs.files with
  | nil => simp [alookup]
  | cons e t ih =>
    by_cases hek : e.1 = k
    · subst hek
      cases hP : isPre d e.1 <;> simp [List.filter, hP, alookup, ih]
    · cases hP : isPre d e.1 <;> simp [List.filter, hP, alookup, hek, ih]

/-- After creating the destination's parent directories, a source that was
neither a directory nor a file, and is not an ancestor of the destination,
still does not exist. -/
theorem fsExists_mkdirp_parent_missing (fs0 : FS) (source destination : FPath)
    (hsA : dirMem fs0 source = false)
    (hsB : alookup fs0.files source = none)
    (hnp : isPre source destination = false) :
    fsExists (mkdirp fs0 (parentOf destination)) source = false := by
  simp only [fsExists, mkdirp, dirMem, listHas_append, hsB, Option.isSome_none,
    Bool.or_false]
  have h1 : listHas (prefixesOf (parentOf destination)) source = false := by
    cases h : listHas (prefixesOf (parentOf destination)) source with
    | false => rfl
    | true =>
      have hm := (listHas_iff_mem _ _).mp h
      have := isPre_trans source (parentOf destination) destination
        (mem_prefixesOf_isPre _ _ hm) (isPre_parentOf destination)
      rw [this] at hnp
      cases hnp
  rw [h1]
  simpa [dirMem] using hsA

/-- The state after the missing-source branch of `clean_and_copy`: the
destination is an empty directory. -/
theorem clean_and_copy_missing_aux (fs0 : FS) (destination : FPath)
    (hdst : destination ≠ [])
    (hunder : ∀ p, isPre destination p = true → p ≠ destination →
      listHas fs0.dirs p = false ∧ alookup fs0.files p = none) :
    dirMem (mkdirp (mkdirp fs0 (parentOf destination)) destination) destination = true ∧
    ∀ p, isPre destination p = true → p ≠ destination →
      dirMem (mkdirp (mkdirp fs0 (parentOf destination)) destination) p = false ∧
      alookup (mkdirp (mkdirp fs0 (parentOf destination)) destination).files p = none := by
  constructor
  · simp only [dirMem, mkdirp, listHas_append]
    have : listHas (prefixesOf destination) destination = true :=
      (listHas_iff_mem _ _).mpr (self_mem_prefixesOf destination hdst)
    simp [this]
  · intro p hpre hne
    have hnotin : ∀ r : FPath, isPre r destination = true → listHas (prefixesOf r) p = false := by
      intro r hr
      cases h : listHas (prefixesOf r) p with
      | false => rfl
      | true =>
        have hm := (listHas_iff_mem _ _).mp h
        have hpd : isPre p destination = true :=
          isPre_trans p r destination (mem_prefixesOf_isPre _ _ hm) hr
        exact absurd (isPre_antisymm destination p hpre hpd) (Ne.symm hne)
    constructor
    · simp only [dirMem, mkdirp, listHas_append]
      rw [hnotin destination (isPre_refl destination),
        hnotin (parentOf destination) (isPre_parentOf destination),
        (hunder p hpre hne).1]
      rfl
    · simpa [mkdirp] using (hunder p hpre hne).2

/-- Claim C3: when the source subpath does not exist, `clean_and_copy` does
not abort: it removes any previous destination contents and leaves the
destination as an existing, empty directory. -/
theorem c3_clean_and_copy_missing_source (fs : FS) (source destination : FPath)
    (hsrc : fsExists fs source = false)
    (hnp : isPre source destination = false)
    (hclosed : FS.closedb fs = true)
    (hdst : destination ≠ []) :
    dirMem (clean_and_copy fs source destination) destination = true ∧
    ∀ p, isPre destination p = true → p ≠ destination →
      dirMem (clean_and_copy fs source destination) p = false ∧
      alookup (clean_and_copy fs source destination).files p = none := by
  have hsrc' := hsrc
  simp only [fsExists, Bool.or_eq_false_iff] at hsrc'
  obtain ⟨hsA0, hsB0⟩ := hsrc'
  have hsB0' : alookup fs.files source = none := by
    cases h : alookup fs.files source with
    | none => rfl
    | some v => rw [h] at hsB0; cases hsB0
  have hclosed' := hclosed
  simp only [FS.closedb, Bool.and_eq_true, List.all_eq_true, Bool.or_eq_true,
    decide_eq_true_eq] at hclosed'
  obtain ⟨hcd, hcf⟩ := hclosed'
  by_cases hdstex : fsExists fs destination = true
  · -- the old destination is deleted first
    have hred : clean_and_copy fs source destination =
        mkdirp (mkdirp (rmtree fs destination) (parentOf destination)) destination := by
      rw [clean_and_copy]
      simp only [hdstex, if_true]
      rw [if_pos]
      apply fsExists_mkdirp_parent_missing
      · rw [dirMem_rmtree]
        rw [show dirMem fs source = false from hsA0]
        simp
      · rw [alookup_rmtree]
        split
        · rfl
        · exact hsB0'
      · exact hnp
    rw [hred]
    apply clean_and_copy_missing_aux _ _ hdst
    intro p hpre _
    constructor
    · have := dirMem_rmtree fs destination p
      simp only [dirMem] at this
      rw [this, hpre]
      simp
    · rw [alookup_rmtree, if_pos hpre]
  · -- nothing to delete; closedness says nothing lives under the destination
    have hdstex' : fsExists fs destination = false := by
      cases h : fsExists fs destination with
      | false => rfl
      | true => exact absurd h hdstex
    have hddir : dirMem fs destination = false := by
      have hh := hdstex'
      simp only [fsExists, Bool.or_eq_false_iff] at hh
      exact hh.1
    have hred : clean_and_copy fs source destination =
        mkdirp (mkdirp fs (parentOf destination)) destination := by
      rw [clean_and_copy]
      simp only [hdstex', Bool.false_eq_true, if_false]
      rw [if_pos]
      exact fsExists_mkdirp_parent_missing fs source destination hsA0 hsB0' hnp
    rw [hred]
    apply clean_and_copy_missing_aux _ _ hdst
    intro p hpre hne
    constructor
    · cases h : listHas fs.dirs p with
      | false => rfl
      | true =>
        exfalso
        have hp := (listHas_iff_mem _ _).mp h
        have hdm := hcd p hp destination
          (isPre_mem_prefixesOf p destination hdst hpre)
        rcases hdm with rfl | hdm
        · exact hne rfl
        · rw [dirMem, hdm] at hddir
          cases hddir
    · cases h : alookup fs.files p with
      | none => rfl
      | some v =>
        exfalso
        have hp := alookup_mem fs.files p v h
        have hdm := hcf (p, v) hp destination
          (isPre_mem_prefixesOf p destination hdst hpre)
        rcases hdm with rfl | hdm
        · exact hne rfl
        · rw [dirMem, hdm] at hddir
          cases hddir

/-- Witness for C3 on a concrete file system whose old destination contents
get removed. -/
theorem c3_clean_and_copy_missing_source_witness :
    dirMem (clean_and_copy
        ⟨[["docs"], ["docs", "MASWE"], ["docs", "MASWE", "old"]],
         [(["docs", "MASWE", "old", "x.md"], ("hi").toList)]⟩
        ["repos", "maswe", "weaknesses"] ["docs", "MASWE"]) ["docs", "MASWE"] = true ∧
    dirMem (clean_and_copy
        ⟨[["docs"], ["docs", "MASWE"], ["docs", "MASWE", "old"]],
         [(["docs", "MASWE", "old", "x.md"], ("hi").toList)]⟩
        ["repos", "maswe", "weaknesses"] ["docs", "MASWE"]) ["docs", "MASWE", "old"] = false ∧
    alookup (clean_and_copy
        ⟨[["docs"], ["docs", "MASWE"], ["docs", "MASWE", "old"]],
         [(["docs", "MASWE", "old", "x.md"], ("hi").toList)]⟩
        ["repos", "maswe", "weaknesses"] ["docs", "MASWE"]).files
      ["docs", "MASWE", "old", "x.md"] = none :=
  ⟨(c3_clean_and_copy_missing_source
      ⟨[["docs"], ["docs", "MASWE"], ["docs", "MASWE", "old"]],
       [(["docs", "MASWE", "old", "x.md"], ("hi").toList)]⟩
      ["repos", "maswe", "weaknesses"] ["docs", "MASWE"]
      (by decide) (by decide) (by decide) (by decide)).1,
   ((c3_clean_and_copy_missing_source
      ⟨[["docs"], ["docs", "MASWE"], ["docs", "MASWE", "old"]],
       [(["docs", "MASWE", "old", "x.md"], ("hi").toList)]⟩
      ["repos", "maswe", "weaknesses"] ["docs", "MASWE"]
      (by decide) (by decide) (by decide) (by decide)).2
      ["docs", "MASWE", "old"] (by decide) (by decide)).1,
   ((c3_clean_and_copy_missing_source
      ⟨[["docs"], ["docs", "MASWE"], ["docs", "MASWE", "old"]],
       [(["docs", "MASWE", "old", "x.md"], ("hi").toList)]⟩
      ["repos", "maswe", "weaknesses"] ["docs", "MASWE"]
      (by decide) (by decide) (by decide) (by decide)).2
      ["docs", "MASWE", "old", "x.md"] (by decide) (by decide)).2⟩

set_option maxRecDepth 40000 in
/-- Counterexample to claim C8: starting from `c8fs0` (well-formed, sources
present and unchanged), the stale markdown file directly under `docs/MASTG`
holds `"Document/"` after one merge pass but `""` after a second pass — the
two output trees are not byte-identical, because `batch_replace` re-applies
the `"Document/" -> ""` substitution to a file that no `clean_and_copy`
resets. -/
theorem c8_counterexample :
    isOkE (on_pre_build c8fs0) = true ∧
    isOkE (on_pre_build c8run1) = true ∧
    alookup c8run1.files ["docs", "MASTG", "stale.md"] = some (("Document/").toList) ∧
    alookup c8run2.files ["docs", "MASTG", "stale.md"] = some [] ∧
    some (("Document/").toList) ≠ (some [] : Option Chars) := by
  refine ⟨rfl, rfl, by decide, by decide, by decide⟩

/-- A path is a prefix of itself extended. -/
theorem isPre_append (a b : FPath) : isPre a (a ++ b) = true := by
  induction a with
  | nil => rfl
  | cons x xs ih => simp [isPre, ih]

/-- Recover the whole from a prefix and the dropped remainder. -/
theorem isPre_recover : ∀ a b : FPath, isPre a b = true → a ++ b.drop a.length = b := by
  intro a
  induction a with
  | nil => intro b _; simp
  | cons x xs ih =>
    intro b h
    cases b with
    | nil => simp [isPre] at h
    | cons y ys =>
      simp only [isPre] at h
      by_cases hxy : x = y
      · subst hxy
        simp only [if_pos rfl] at h
        simpa using ih ys h
      · simp [if_neg hxy] at h

/-- Two prefixes of the same path are comparable. -/
theorem isPre_comparable :
    ∀ p a b : FPath, isPre a p = true → isPre b p = true →
      isPre a b = true ∨ isPre b a = true := by
  intro p
  induction p with
  | nil =>
    intro a b ha hb
    cases a with
    | nil => left; rfl
    | cons x xs => simp [isPre] at ha
  | cons y ys ih =>
    intro a b ha hb
    cases a with
    | nil => left; rfl
    | cons x xs =>
      cases b with
      | nil => right; rfl
      | cons z zs =>
        simp only [isPre] at ha hb
        by_cases hxy : x = y
        · subst hxy
          simp only [if_pos rfl] at ha
          by_cases hzy : z = x
          · subst hzy
            simp only [if_pos rfl] at hb
            rcases ih xs zs ha hb with h | h
            · left; simp [isPre, h]
            · right; simp [isPre, h]
          · simp [if_neg hzy] at hb
        · simp [if_neg hxy] at ha

/-- A path with a non-trivial non-prefix condition is non-empty. -/
theorem ne_nil_of_isPre_false (a b : FPath) (h : isPre a b = false) : a ≠ [] := by
  intro hnil
  subst hnil
  simp [isPre] at h

/-- Dropping exactly the first list. -/
theorem drop_append_len {α : Type} (a b : List α) : (a ++ b).drop a.length = b := by
  simpa using drop_append_add a b 0

/-- Re-rooting is a bijection between the source and destination regions. -/
theorem reroot_eq_iff (src dst d q : FPath)
    (hq : isPre dst q = true) (hsd : isPre src d = true) :
    reroot src dst d = q ↔ d = src ++ q.drop dst.length := by
  constructor
  · intro hk
    have h1 : q.drop dst.length = d.drop src.length := by
      rw [← hk]
      simp only [reroot]
      rw [drop_append_len]
    rw [h1, isPre_recover src d hsd]
  · intro hd
    subst hd
    simp only [reroot]
    rw [drop_append_len]
    exact isPre_recover dst q hq

/-- Looking up a destination-region path among the re-rooted directories is
looking up the corresponding source-region path among the originals. -/
theorem listHas_rerootDirs (dirs : List FPath) (src dst q : FPath)
    (hq : isPre dst q = true) :
    listHas (dirs.filterMap
        (fun d => if isPre src d then some (reroot src dst d) else none)) q =
      listHas dirs (src ++ q.drop dst.length) := by
  induction dirs with
  | nil => simp [listHas]
  | cons d t ih =>
    by_cases hsd : isPre src d = true
    · rw [List.filterMap_cons, if_pos hsd]
      by_cases hdq : reroot src dst d = q
      · have hd : d = src ++ q.drop dst.length := (reroot_eq_iff src dst d q hq hsd).mp hdq
        simp [listHas, hdq, hd.symm]
      · have hd : ¬ (d = src ++ q.drop dst.length) :=
          fun h => hdq ((reroot_eq_iff src dst d q hq hsd).mpr h)
        simp only [listHas, if_neg hdq, if_neg hd]
        exact ih
    · have hsd' : isPre src d = false := by
        cases h : isPre src d with
        | false => rfl
        | true => exact absurd h hsd
      rw [List.filterMap_cons, if_neg (by rw [hsd']; intro h; cases h)]
      rw [ih]
      have hd : ¬ (d = src ++ q.drop dst.length) := by
        intro h
        subst h
        exact hsd (isPre_append src _)
      simp only [listHas, if_neg hd]

/-- File lookup at a destination-region path among the re-rooted files is the
lookup at the corresponding source-region path. -/
theorem alookup_rerootFiles (files : List (FPath × Chars)) (src dst q : FPath)
    (hq : isPre dst q = true) :
    alookup (files.filterMap
        (fun e => if isPre src e.1 then some (reroot src dst e.1, e.2) else none)) q =
      alookup files (src ++ q.drop dst.length) := by
  induction files with
  | nil => simp [alookup]
  | cons e t ih =>
    by_cases hsd : isPre src e.1 = true
    · rw [List.filterMap_cons, if_pos hsd]
      by_cases hdq : reroot src dst e.1 = q
      · have hd : e.1 = src ++ q.drop dst.length :=
          (reroot_eq_iff src dst e.1 q hq hsd).mp hdq
        dsimp only [alookup]
        rw [if_pos hdq, if_pos hd]
      · have hd : ¬ (e.1 = src ++ q.drop dst.length) :=
          fun h => hdq ((reroot_eq_iff src dst e.1 q hq hsd).mpr h)
        simp only [alookup, if_neg hdq, if_neg hd]
        exact ih
    · have hsd' : isPre src e.1 = false := by
        cases h : isPre src e.1 with
        | false => rfl
        | true => exact absurd h hsd
      rw [List.filterMap_cons, if_neg (by rw [hsd']; intro h; cases h)]
      rw [ih]
      have hd : ¬ (e.1 = src ++ q.drop dst.length) := by
        intro h
        exact hsd (h ▸ isPre_append src _)
      simp only [alookup, if_neg hd]

/-- Re-rooted directories all live under the destination. -/
theorem listHas_rerootDirs_out (dirs : List FPath) (src dst q : FPath)
    (hq : isPre dst q = false) :
    listHas (dirs.filterMap
        (fun d => if isPre src d then some (reroot src dst d) else none)) q = false := by
  induction dirs with
  | nil => simp [listHas]
  | cons d t ih =>
    by_cases hsd : isPre src d = true
    · rw [List.filterMap_cons, if_pos hsd]
      have hne : ¬ (reroot src dst d = q) := by
        intro h
        rw [← h, reroot] at hq
        rw [isPre_append] at hq
        cases hq
      simp only [listHas, if_neg hne]
      exact ih
    · have hsd' : isPre src d = false := by
        cases h : isPre src d with
        | false => rfl
        | true => exact absurd h hsd
      rw [List.filterMap_cons, if_neg (by rw [hsd']; intro h; cases h)]
      exact ih

/-- Re-rooted files all live under the destination. -/
theorem alookup_rerootFiles_out (files : List (FPath × Chars)) (src dst q : FPath)
    (hq : isPre dst q = false) :
    alookup (files.filterMap
        (fun e => if isPre src e.1 then some (reroot src dst e.1, e.2) else none)) q =
      none := by
  induction files with
  | nil => simp [alookup]
  | cons e t ih =>
    by_cases hsd : isPre src e.1 = true
    · rw [List.filterMap_cons, if_pos hsd]
      have hne : ¬ (reroot src dst e.1 = q) := by
        intro h
        rw [← h, reroot] at hq
        rw [isPre_append] at hq
        cases hq
      simp only [alookup, if_neg hne]
      exact ih
    · have hsd' : isPre src e.1 = false := by
        cases h : isPre src e.1 with
        | false => rfl
        | true => exact absurd h hsd
      rw [List.filterMap_cons, if_neg (by rw [hsd']; intro h; cases h)]
      exact ih

/-- A path extending the source is never inside the (incomparable)
destination region. -/
theorem not_isPre_dst_of_src_ext (src dst u : FPath)
    (h1 : isPre src dst = false) (h2 : isPre dst src = false) :
    isPre dst (src ++ u) = false := by
  cases h : isPre dst (src ++ u) with
  | false => rfl
  | true =>
    rcases isPre_comparable (src ++ u) dst src h (isPre_append src u) with hc | hc
    · rw [hc] at h2; cases h2
    · rw [hc] at h1; cases h1

/-- The destination region of the first step of `clean_and_copy` (delete the
old destination if it exists) is empty, given that a never-deleted
destination had an empty region to begin with. -/
theorem cc_fs1_region_empty (fs : FS) (dst : FPath)
    (hreg : fsExists fs dst = false →
      ∀ p, isPre dst p = true → dirMem fs p = false ∧ alookup fs.files p = none) :
    ∀ p, isPre dst p = true →
      listHas (if fsExists fs dst then rmtree fs dst else fs).dirs p = false ∧
      alookup (if fsExists fs dst then rmtree fs dst else fs).files p = none := by
  intro p hp
  by_cases hex : fsExists fs dst = true
  · rw [if_pos hex]
    constructor
    · have h := dirMem_rmtree fs dst p
      simp only [dirMem] at h
      rw [h, hp]
      simp
    · rw [alookup_rmtree, if_pos hp]
  · have hex' : fsExists fs dst = false := by
      cases h : fsExists fs dst with
      | false => rfl
      | true => exact absurd h hex
    rw [if_neg hex]
    exact ⟨(hreg hex' p hp).1, (hreg hex' p hp).2⟩

/-- The first step of `clean_and_copy` leaves the source region unchanged. -/
theorem cc_fs1_src_pres (fs : FS) (src dst : FPath)
    (h1 : isPre src dst = false) (h2 : isPre dst src = false) :
    ∀ u : FPath,
      listHas (if fsExists fs dst then rmtree fs dst else fs).dirs (src ++ u) =
        listHas fs.dirs (src ++ u) ∧
      alookup (if fsExists fs dst then rmtree fs dst else fs).files (src ++ u) =
        alookup fs.files (src ++ u) := by
  intro u
  have hnd : isPre dst (src ++ u) = false := not_isPre_dst_of_src_ext src dst u h1 h2
  by_cases hex : fsExists fs dst = true
  · rw [if_pos hex]
    constructor
    · have h := dirMem_rmtree fs dst (src ++ u)
      simp only [dirMem] at h
      rw [h, hnd]
      simp
    · rw [alookup_rmtree, if_neg (by rw [hnd]; intro hh; cases hh)]
  · rw [if_neg hex]
    exact ⟨rfl, rfl⟩

/-- No prefix of the destination's parent lies in the destination region. -/
theorem listHas_prefixes_parent_dst (dst q : FPath) (hdst : dst ≠ [])
    (hq : isPre dst q = true) :
    listHas (prefixesOf (parentOf dst)) q = false := by
  cases h : listHas (prefixesOf (parentOf dst)) q with
  | false => rfl
  | true =>
    exfalso
    have hm := (listHas_iff_mem _ _).mp h
    have hq2 : isPre q (parentOf dst) = true := mem_prefixesOf_isPre _ _ hm
    have hq3 : isPre dst (parentOf dst) = true :=
      isPre_trans dst q (parentOf dst) hq hq2
    have hlen := isPre_length dst (parentOf dst) hq3
    have hlt : (parentOf dst).length < dst.length := by
      rw [parentOf, List.length_dropLast]
      cases dst with
      | nil => exact absurd rfl hdst
      | cons x xs => simp
    omega

/-- No prefix of the destination's parent lies in the (incomparable) source
region. -/
theorem listHas_prefixes_parent_src (src dst q : FPath)
    (h1 : isPre src dst = false) (hq : isPre src q = true) :
    listHas (prefixesOf (parentOf dst)) q = false := by
  cases h : listHas (prefixesOf (parentOf dst)) q with
  | false => rfl
  | true =>
    exfalso
    have hm := (listHas_iff_mem _ _).mp h
    have hq2 : isPre q (parentOf dst) = true := mem_prefixesOf_isPre _ _ hm
    have hq3 : isPre q dst = true :=
      isPre_trans q (parentOf dst) dst hq2 (isPre_parentOf dst)
    have hq4 : isPre src dst = true := isPre_trans src q dst hq hq3
    rw [hq4] at h1
    cases h1

/-- Among the prefixes of the destination, only the destination itself lies
in the destination region. -/
theorem listHas_prefixesOf_dst (dst q : FPath) (hdst : dst ≠ [])
    (hq : isPre dst q = true) :
    listHas (prefixesOf dst) q = decide (q = dst) := by
  by_cases hqd : q = dst
  · subst hqd
    rw [(listHas_iff_mem _ _).mpr (self_mem_prefixesOf q hdst)]
    simp
  · have hhas : listHas (prefixesOf dst) q = false := by
      cases h : listHas (prefixesOf dst) q with
      | false => rfl
      | true =>
        exfalso
        have hm := (listHas_iff_mem _ _).mp h
        have hq2 : isPre q dst = true := mem_prefixesOf_isPre _ _ hm
        exact hqd (isPre_antisymm q dst hq2 hq)
    rw [hhas]
    simp [hqd]

/-- No prefix of the destination lies in the (incomparable) source region. -/
theorem listHas_prefixesOf_dst_src (src dst q : FPath)
    (h1 : isPre src dst = false) (hq : isPre src q = true) :
    listHas (prefixesOf dst) q = false := by
  cases h : listHas (prefixesOf dst) q with
  | false => rfl
  | true =>
    exfalso
    have hm := (listHas_iff_mem _ _).mp h
    have hq2 : isPre q dst = true := mem_prefixesOf_isPre _ _ hm
    have hq3 : isPre src dst = true := isPre_trans src q dst hq hq2
    rw [hq3] at h1
    cases h1

/-- Creating the destination's parent does not change whether the source
exists. -/
theorem cc_guard (fs : FS) (src dst : FPath)
    (h1 : isPre src dst = false) (h2 : isPre dst src = false) :
    fsExists (mkdirp (if fsExists fs dst then rmtree fs dst else fs) (parentOf dst)) src =
      fsExists fs src := by
  have hpres := cc_fs1_src_pres fs src dst h1 h2 []
  rw [List.append_nil] at hpres
  set fs1 := if fsExists fs dst then rmtree fs dst else fs with hfs1
  simp only [fsExists, mkdirp, dirMem, listHas_append]
  rw [listHas_prefixes_parent_src src dst src h1 (isPre_refl src)]
  rw [hpres.1, hpres.2]
  simp

/-- The destination region after `clean_and_copy`: when the source exists it
is the re-rooted source region of the original state; otherwise it is just
the empty destination directory. -/
theorem cc_region (fs : FS) (src dst : FPath)
    (h1 : isPre src dst = false) (h2 : isPre dst src = false)
    (hreg : fsExists fs dst = false →
      ∀ p, isPre dst p = true → dirMem fs p = false ∧ alookup fs.files p = none) :
    ∀ q, isPre dst q = true →
      dirMem (clean_and_copy fs src dst) q =
        (if fsExists fs src = true then dirMem fs (src ++ q.drop dst.length)
         else decide (q = dst)) ∧
      alookup (clean_and_copy fs src dst).files q =
        (if fsExists fs src = true then alookup fs.files (src ++ q.drop dst.length)
         else none) := by
  intro q hq
  have hdst : dst ≠ [] := ne_nil_of_isPre_false dst src h2
  have hempty := cc_fs1_region_empty fs dst hreg q hq
  have hpresq := cc_fs1_src_pres fs src dst h1 h2 (q.drop dst.length)
  have hguard := cc_guard fs src dst h1 h2
  have hcc : clean_and_copy fs src dst =
      (if fsExists (mkdirp (if fsExists fs dst then rmtree fs dst else fs)
            (parentOf dst)) src = false
       then mkdirp (mkdirp (if fsExists fs dst then rmtree fs dst else fs)
              (parentOf dst)) dst
       else copytree (mkdirp (if fsExists fs dst then rmtree fs dst else fs)
              (parentOf dst)) src dst) := rfl
  set fs1 := if fsExists fs dst then rmtree fs dst else fs with hfs1
  by_cases hsrcex : fsExists fs src = true
  · have hNe : ¬ (fsExists (mkdirp fs1 (parentOf dst)) src = false) := by
      rw [hguard, hsrcex]
      simp
    have hccE : clean_and_copy fs src dst = copytree (mkdirp fs1 (parentOf dst)) src dst := by
      rw [hcc, if_neg hNe]
    constructor
    · rw [hccE, if_pos hsrcex]
      dsimp only [copytree, mkdirp, dirMem]
      rw [listHas_append, listHas_rerootDirs _ src dst q hq]
      rw [listHas_append, listHas_append]
      rw [listHas_prefixes_parent_src src dst _ h1 (isPre_append src _)]
      rw [hpresq.1]
      rw [listHas_prefixes_parent_dst dst q hdst hq]
      rw [hempty.1]
      simp [dirMem]
    · rw [hccE, if_pos hsrcex]
      dsimp only [copytree, mkdirp]
      rw [alookup_append, alookup_rerootFiles _ src dst q hq]
      rw [hempty.2]
      rw [Option.or_none]
      exact hpresq.2
  · have hsrc' : fsExists fs src = false := by
      cases h : fsExists fs src with
      | false => rfl
      | true => exact absurd h hsrcex
    have hccE : clean_and_copy fs src dst = mkdirp (mkdirp fs1 (parentOf dst)) dst := by
      rw [hcc, if_pos (show fsExists (mkdirp fs1 (parentOf dst)) src = false by
        rw [hguard]; exact hsrc')]
    constructor
    · rw [hccE, if_neg hsrcex]
      dsimp only [mkdirp, dirMem]
      rw [listHas_append, listHas_append]
      rw [listHas_prefixesOf_dst dst q hdst hq]
      rw [listHas_prefixes_parent_dst dst q hdst hq]
      rw [hempty.1]
      simp
    · rw [hccE, if_neg hsrcex]
      dsimp only [mkdirp]
      exact hempty.2

/-- After `clean_and_copy`, the destination always exists: as an empty
directory when the source was missing, otherwise as the re-rooted source. -/
theorem cc_dst_exists (fs : FS) (src dst : FPath)
    (h1 : isPre src dst = false) (h2 : isPre dst src = false)
    (hreg : fsExists fs dst = false →
      ∀ p, isPre dst p = true → dirMem fs p = false ∧ alookup fs.files p = none) :
    fsExists (clean_and_copy fs src dst) dst = true := by
  have hq := cc_region fs src dst h1 h2 hreg dst (isPre_refl dst)
  have hdrop : dst.drop dst.length = ([] : FPath) := by simp
  rw [hdrop, List.append_nil] at hq
  show (dirMem (clean_and_copy fs src dst) dst ||
    (alookup (clean_and_copy fs src dst).files dst).isSome) = true
  rw [hq.1, hq.2]
  by_cases hsrcex : fsExists fs src = true
  · rw [if_pos hsrcex, if_pos hsrcex]
    exact hsrcex
  · rw [if_neg hsrcex, if_neg hsrcex]
    simp

/-- `clean_and_copy` leaves the (incomparable) source region unchanged. -/
theorem cc_src_pres (fs : FS) (src dst : FPath)
    (h1 : isPre src dst = false) (h2 : isPre dst src = false) :
    ∀ u : FPath,
      dirMem (clean_and_copy fs src dst) (src ++ u) = dirMem fs (src ++ u) ∧
      alookup (clean_and_copy fs src dst).files (src ++ u) =
        alookup fs.files (src ++ u) := by
  intro u
  have hnd : isPre dst (src ++ u) = false := not_isPre_dst_of_src_ext src dst u h1 h2
  have hpres := cc_fs1_src_pres fs src dst h1 h2 u
  have hguard := cc_guard fs src dst h1 h2
  have hcc : clean_and_copy fs src dst =
      (if fsExists (mkdirp (if fsExists fs dst then rmtree fs dst else fs)
            (parentOf dst)) src = false
       then mkdirp (mkdirp (if fsExists fs dst then rmtree fs dst else fs)
              (parentOf dst)) dst
       else copytree (mkdirp (if fsExists fs dst then rmtree fs dst else fs)
              (parentOf dst)) src dst) := rfl
  set fs1 := if fsExists fs dst then rmtree fs dst else fs with hfs1
  have hparent : listHas (prefixesOf (parentOf dst)) (src ++ u) = false :=
    listHas_prefixes_parent_src src dst (src ++ u) h1 (isPre_append src u)
  by_cases hsrcex : fsExists fs src = true
  · have hNe : ¬ (fsExists (mkdirp fs1 (parentOf dst)) src = false) := by
      rw [hguard, hsrcex]
      simp
    have hccE : clean_and_copy fs src dst = copytree (mkdirp fs1 (parentOf dst)) src dst := by
      rw [hcc, if_neg hNe]
    constructor
    · rw [hccE]
      dsimp only [copytree, mkdirp, dirMem]
      rw [listHas_append, listHas_rerootDirs_out _ src dst _ hnd]
      rw [listHas_append, hparent, hpres.1]
      simp [dirMem]
    · rw [hccE]
      dsimp only [copytree, mkdirp]
      rw [alookup_append, alookup_rerootFiles_out _ src dst _ hnd]
      rw [Option.none_or]
      exact hpres.2
  · have hsrc' : fsExists fs src = false := by
      cases h : fsExists fs src with
      | false => rfl
      | true => exact absurd h hsrcex
    have hccE : clean_and_copy fs src dst = mkdirp (mkdirp fs1 (parentOf dst)) dst := by
      rw [hcc, if_pos (show fsExists (mkdirp fs1 (parentOf dst)) src = false by
        rw [hguard]; exact hsrc')]
    constructor
    · rw [hccE]
      dsimp only [mkdirp, dirMem]
      rw [listHas_append, listHas_append]
      rw [listHas_prefixesOf_dst_src src dst _ h1 (isPre_append src u)]
      rw [hparent, hpres.1]
      simp [dirMem]
    · rw [hccE]
      dsimp only [mkdirp]
      exact hpres.2

/-- `clean_and_copy` does not change whether its source exists. -/
theorem cc_src_exists (fs : FS) (src dst : FPath)
    (h1 : isPre src dst = false) (h2 : isPre dst src = false) :
    fsExists (clean_and_copy fs src dst) src = fsExists fs src := by
  have h := cc_src_pres fs src dst h1 h2 []
  rw [List.append_nil] at h
  show (dirMem (clean_and_copy fs src dst) src ||
      (alookup (clean_and_copy fs src dst).files src).isSome) =
    (dirMem fs src || (alookup fs.files src).isSome)
  rw [h.1, h.2]

/-- On a well-formed file system, a destination that does not exist has an
empty region. -/
theorem closed_dstEmpty (fs : FS) (dst : FPath) (hclosed : FS.closedb fs = true)
    (hdst : dst ≠ []) (hne : fsExists fs dst = false) :
    ∀ p, isPre dst p = true → dirMem fs p = false ∧ alookup fs.files p = none := by
  have hclosed' := hclosed
  simp only [FS.closedb, Bool.and_eq_true, List.all_eq_true, Bool.or_eq_true,
    decide_eq_true_eq] at hclosed'
  obtain ⟨hcd, hcf⟩ := hclosed'
  have hne' := hne
  simp only [fsExists, Bool.or_eq_false_iff] at hne'
  have hddir : dirMem fs dst = false := hne'.1
  have hdfile : alookup fs.files dst = none := by
    cases h : alookup fs.files dst with
    | none => rfl
    | some v =>
      have := hne'.2
      rw [h] at this
      cases this
  intro p hp
  by_cases hpd : p = dst
  · subst hpd
    exact ⟨hddir, hdfile⟩
  · constructor
    · cases h : listHas fs.dirs p with
      | false => exact h
      | true =>
        exfalso
        have hpmem := (listHas_iff_mem _ _).mp h
        have hdm := hcd p hpmem dst (isPre_mem_prefixesOf p dst hdst hp)
        rcases hdm with rfl | hdm
        · exact hpd rfl
        · rw [dirMem, hdm] at hddir
          cases hddir
    · cases h : alookup fs.files p with
      | none => rfl
      | some v =>
        exfalso
        have hpmem := alookup_mem fs.files p v h
        have hdm := hcf (p, v) hpmem dst (isPre_mem_prefixesOf p dst hdst hp)
        rcases hdm with rfl | hdm
        · exact hpd rfl
        · rw [dirMem, hdm] at hddir
          cases hddir

/-- The amended claim C8: each individual delete-then-copy merge is
idempotent on its destination subtree.  Running `clean_and_copy` again on the
result of a run, with the same (unchanged, non-overlapping) source, leaves
every directory and file under the destination byte-identical.  (The full
pass is not idempotent — see `c8_counterexample` — because markdown files
directly under the MASTG destination root are rewritten in place without
being reset by any `clean_and_copy`.) -/
theorem c8_clean_and_copy_idempotent (fs : FS) (src dst : FPath)
    (h1 : isPre src dst = false) (h2 : isPre dst src = false)
    (hclosed : FS.closedb fs = true) :
    ∀ q, isPre dst q = true →
      dirMem (clean_and_copy (clean_and_copy fs src dst) src dst) q =
        dirMem (clean_and_copy fs src dst) q ∧
      alookup (clean_and_copy (clean_and_copy fs src dst) src dst).files q =
        alookup (clean_and_copy fs src dst).files q := by
  intro q hq
  have hdst : dst ≠ [] := ne_nil_of_isPre_false dst src h2
  have hreg1 : fsExists fs dst = false →
      ∀ p, isPre dst p = true → dirMem fs p = false ∧ alookup fs.files p = none :=
    fun hne => closed_dstEmpty fs dst hclosed hdst hne
  have hreg2 : fsExists (clean_and_copy fs src dst) dst = false →
      ∀ p, isPre dst p = true →
        dirMem (clean_and_copy fs src dst) p = false ∧
        alookup (clean_and_copy fs src dst).files p = none := by
    intro hfalse
    rw [cc_dst_exists fs src dst h1 h2 hreg1] at hfalse
    cases hfalse
  have hA := cc_region (clean_and_copy fs src dst) src dst h1 h2 hreg2 q hq
  have hB := cc_region fs src dst h1 h2 hreg1 q hq
  have hE := cc_src_exists fs src dst h1 h2
  have hP := cc_src_pres fs src dst h1 h2 (q.drop dst.length)
  rw [hA.1, hA.2, hB.1, hB.2, hE]
  by_cases hsrcex : fsExists fs src = true
  · rw [if_pos hsrcex, if_pos hsrcex, if_pos hsrcex, if_pos hsrcex]
    exact ⟨hP.1, hP.2⟩
  · rw [if_neg hsrcex, if_neg hsrcex, if_neg hsrcex, if_neg hsrcex]
    exact ⟨rfl, rfl⟩

/-- Witness for the amended C8 on a concrete well-formed file system. -/
theorem c8_clean_and_copy_idempotent_witness :
    dirMem (clean_and_copy (clean_and_copy
        ⟨[["repos"], ["repos", "maswe"], ["repos", "maswe", "weaknesses"], ["docs"]],
         [(["repos", "maswe", "weaknesses", "w1.md"], ("hello").toList)]⟩
        ["repos", "maswe", "weaknesses"] ["docs", "MASWE"])
        ["repos", "maswe", "weaknesses"] ["docs", "MASWE"])
      ["docs", "MASWE", "w1.md"] =
    dirMem (clean_and_copy
        ⟨[["repos"], ["repos", "maswe"], ["repos", "maswe", "weaknesses"], ["docs"]],
         [(["repos", "maswe", "weaknesses", "w1.md"], ("hello").toList)]⟩
        ["repos", "maswe", "weaknesses"] ["docs", "MASWE"])
      ["docs", "MASWE", "w1.md"] ∧
    alookup (clean_and_copy (clean_and_copy
        ⟨[["repos"], ["repos", "maswe"], ["repos", "maswe", "weaknesses"], ["docs"]],
         [(["repos", "maswe", "weaknesses", "w1.md"], ("hello").toList)]⟩
        ["repos", "maswe", "weaknesses"] ["docs", "MASWE"])
        ["repos", "maswe", "weaknesses"] ["docs", "MASWE"]).files
      ["docs", "MASWE", "w1.md"] =
    alookup (clean_and_copy
        ⟨[["repos"], ["repos", "maswe"], ["repos", "maswe", "weaknesses"], ["docs"]],
         [(["repos", "maswe", "weaknesses", "w1.md"], ("hello").toList)]⟩
        ["repos", "maswe", "weaknesses"] ["docs", "MASWE"]).files
      ["docs", "MASWE", "w1.md"] :=
  c8_clean_and_copy_idempotent
    ⟨[["repos"], ["repos", "maswe"], ["repos", "maswe", "weaknesses"], ["docs"]],
     [(["repos", "maswe", "weaknesses", "w1.md"], ("hello").toList)]⟩
    ["repos", "maswe", "weaknesses"] ["docs", "MASWE"]
    (by decide) (by decide) (by decide)
    ["docs", "MASWE", "w1.md"] (by decide)
